import Mathlib

/-!
Verification of the BetterVoice webhook receiver (src/main.py).

The repository is a single FastAPI endpoint `receive_webhook` that
  * extracts the peer address and the header mapping,
  * decodes the request body through a ladder (JSON, else UTF-8 text, else
    raw bytes), each stage's failure caught locally,
  * serializes the decoded body for logging with
    `json.dumps(body, ensure_ascii=False, default=str)` and a `str(body)`
    fallback,
  * emits one structured log record, and
  * returns `JSONResponse({"received": True, "status": "ok"})`.

This file shallow-embeds the handler.  Python strings are lists of Unicode
code points, byte strings are lists of naturals below 256, fallible library
calls return `Option`, and the `try`/`except` ladder becomes a `match` on the
`Option` results.  The JSON scanner (`json.loads`, the strict C scanner) and
the encoder (`json.dumps`) are modelled as executable functions over code
point lists, faithfully to CPython's grammar: strict strings with the escape
set including `\uXXXX` and surrogate-pair joining, the `NUMBER_RE` number
grammar with `int`/`float` distinction, the `NaN`/`Infinity`/`-Infinity`
constants, Python-`dict` duplicate-key handling, and the default
`(", ", ": ")` separators on output.  Float values keep their exact decimal
value (mantissa and power-of-ten exponent) instead of rounding to IEEE
doubles; the encoder prints that exact decimal.  `json.loads`' sniffing of
UTF-16/32 byte-order marks on `bytes` input and interpreter recursion limits
are platform plumbing left out of the model.
-/

set_option maxHeartbeats 1000000

namespace BVWebhook

/-- Python strings are sequences of Unicode code points; the model uses lists
of naturals (also used for byte strings, with entries below 256). -/
abbrev PyStr := List Nat

/-- Code points of a Lean string literal, for writing `PyStr` constants. -/
def pystr (s : String) : PyStr := s.data.map Char.toNat

/-- JSON whitespace accepted by Python's scanner: space, tab, LF, CR. -/
def isJsonWS (c : Nat) : Bool := c == 32 || c == 9 || c == 10 || c == 13

/-- ASCII decimal digit. -/
def isDigit (c : Nat) : Bool := 48 ≤ c && c ≤ 57

/-- ASCII hexadecimal digit (either case). -/
def isHexDigit (c : Nat) : Bool :=
  isDigit c || (97 ≤ c && c ≤ 102) || (65 ≤ c && c ≤ 70)

/-- Value of a hexadecimal digit character. -/
def hexVal (c : Nat) : Nat :=
  if isDigit c then c - 48 else if 97 ≤ c then c - 87 else c - 55

/-- Lowercase hexadecimal digit character for a value below 16 (CPython
formats `\uXXXX`/`\xhh` escapes with lowercase hex). -/
def hexDigitChar (n : Nat) : Nat := if n < 10 then 48 + n else 87 + n

/-- Drop leading JSON whitespace (the scanner's `_w(s, idx).end()`). -/
def skipWS (s : List Nat) : List Nat := s.dropWhile isJsonWS

/-- Decimal digit characters of a natural number, most significant first
(Python's `repr` of a nonnegative `int`). -/
def natDigits (n : Nat) : List Nat :=
  if n < 10 then [48 + n]
  else natDigits (n / 10) ++ [48 + n % 10]
  termination_by n
  decreasing_by exact Nat.div_lt_self (by omega) (by omega)

/-- Numeric value of a digit character list (most significant first). -/
def digitsVal (ds : List Nat) : Nat :=
  ds.foldl (fun a c => a * 10 + (c - 48)) 0


/-! ### The values produced by `json.loads` -/

/-- Number values produced by Python's JSON scanner: `int` for integer
literals, a float for literals with a fraction or exponent, and the IEEE
specials the scanner accepts as constants (`NaN`, `Infinity`, `-Infinity`).
A finite float is kept as its exact decimal value `m * 10 ^ e` (CPython
rounds the literal to an IEEE double and later prints its shortest decimal
`repr`; the model keeps the exact decimal instead, avoiding binary
rounding while preserving the `int`/`float` distinction). -/
inductive JsonNum where
  | int (n : Int)
  | float (m : Int) (e : Int)
  | nan
  | inf
  | ninf

mutual
/-- Parsed JSON values as produced by `json.loads`. -/
inductive Json where
  | null
  | bool (b : Bool)
  | num (n : JsonNum)
  | str (s : PyStr)
  | arr (elems : JsonElems)
  | obj (members : JsonMembers)

/-- Elements of a JSON array (a specialized list type, keeping the mutual
recursion structural). -/
inductive JsonElems where
  | nil
  | cons (hd : Json) (tl : JsonElems)

/-- Members of a JSON object, in Python `dict` insertion order. -/
inductive JsonMembers where
  | nil
  | cons (key : PyStr) (val : Json) (tl : JsonMembers)
end

/-- Key membership in an object member list (Python `dict` key lookup). -/
def JsonMembers.hasKey : JsonMembers → PyStr → Bool
  | .nil, _ => false
  | .cons k _ tl, key => k == key || tl.hasKey key

/-- Python `dict` item assignment: an existing key keeps its position and
takes the new value, a new key is appended (`json.loads` applies this for
duplicate object keys: last value wins, first position kept). -/
def JsonMembers.insert : JsonMembers → PyStr → Json → JsonMembers
  | .nil, key, v => .cons key v .nil
  | .cons k w tl, key, v =>
      if k == key then .cons k v tl else .cons k w (tl.insert key v)

/-- Concatenation of member lists. -/
def JsonMembers.append : JsonMembers → JsonMembers → JsonMembers
  | .nil, ms => ms
  | .cons k v tl, ms => .cons k v (tl.append ms)

/-! ### The encoder: `json.dumps(v, ensure_ascii=False)`

Default separators `(", ", ": ")`, `allow_nan=True`.  With
`ensure_ascii=False` the encoder escapes only the double quote, the
backslash and control characters below U+0020 (`encoder.ESCAPE_DCT`),
everything else is emitted verbatim. -/

/-- Escaping of one character by the encoder. -/
def escapeChar (c : Nat) : List Nat :=
  if c == 34 then [92, 34]          -- backslash, double quote
  else if c == 92 then [92, 92]     -- doubled backslash
  else if c == 8 then [92, 98]      -- backslash b
  else if c == 9 then [92, 116]     -- backslash t
  else if c == 10 then [92, 110]    -- backslash n
  else if c == 12 then [92, 102]    -- backslash f
  else if c == 13 then [92, 114]    -- backslash r
  else if c < 32 then [92, 117, 48, 48, hexDigitChar (c / 16), hexDigitChar (c % 16)]
  else [c]

/-- Escaped body of an encoded JSON string. -/
def escapeString : PyStr → List Nat
  | [] => []
  | c :: cs => escapeChar c ++ escapeString cs

/-- Printed form of a Python `int` (`repr`). -/
def serInt (n : Int) : List Nat :=
  if n < 0 then 45 :: natDigits n.natAbs else natDigits n.natAbs

/-- Printed form of a finite model float `m * 10 ^ e`: the exact scientific
literal `<m>e<e>`, a JSON number denoting the same decimal value. -/
def serFloat (m e : Int) : List Nat := serInt m ++ 101 :: serInt e

/-- Printed form of a number value. -/
def serNum : JsonNum → List Nat
  | .int n => serInt n
  | .float m e => serFloat m e
  | .nan => [78, 97, 78]                                   -- NaN
  | .inf => [73, 110, 102, 105, 110, 105, 116, 121]        -- Infinity
  | .ninf => [45, 73, 110, 102, 105, 110, 105, 116, 121]   -- -Infinity

mutual
/-- `json.dumps(v, ensure_ascii=False)` with the default separators. -/
def serJson : Json → List Nat
  | .null => [110, 117, 108, 108]            -- null
  | .bool true => [116, 114, 117, 101]       -- true
  | .bool false => [102, 97, 108, 115, 101]  -- false
  | .num n => serNum n
  | .str s => 34 :: escapeString s ++ [34]
  | .arr .nil => [91, 93]                    -- square brackets
  | .arr (.cons x xs) => 91 :: serJson x ++ serElems xs ++ [93]
  | .obj .nil => [123, 125]                  -- curly braces
  | .obj (.cons k v ms) =>
      123 :: 34 :: escapeString k ++ [34, 58, 32] ++ serJson v ++ serMembers ms ++ [125]

/-- Remaining array items, each preceded by the `", "` separator. -/
def serElems : JsonElems → List Nat
  | .nil => []
  | .cons x xs => 44 :: 32 :: serJson x ++ serElems xs

/-- Remaining object members, each preceded by the `", "` separator, with the
`": "` key separator. -/
def serMembers : JsonMembers → List Nat
  | .nil => []
  | .cons k v ms => 44 :: 32 :: 34 :: escapeString k ++ [34, 58, 32] ++ serJson v ++ serMembers ms
end

/-! ### The scanner: `json.loads` (CPython's strict C scanner)

Strings are strict (no raw control characters below U+0020), the escape set
is the JSON one plus `\uXXXX` with surrogate-pair joining; numbers follow
`NUMBER_RE` (`-?(0|[1-9][0-9]*)(\.[0-9]+)?([eE][-+]?[0-9]+)?`), integer
literals giving `int` and the rest `float`; the constants `NaN`, `Infinity`
and `-Infinity` are accepted. -/

/-- After a `\uXXXX` escape produced a high surrogate, the scanner peeks for
an immediately following `\uXXXX` low surrogate (to join the pair). -/
def peekLowSurrogate : List Nat → Option (Nat × List Nat)
  | 92 :: 117 :: g1 :: g2 :: g3 :: g4 :: r2 =>
    if isHexDigit g1 && isHexDigit g2 && isHexDigit g3 && isHexDigit g4 then
      if 56320 ≤ ((hexVal g1 * 16 + hexVal g2) * 16 + hexVal g3) * 16 + hexVal g4
          && ((hexVal g1 * 16 + hexVal g2) * 16 + hexVal g3) * 16 + hexVal g4 ≤ 57343 then
        some (((hexVal g1 * 16 + hexVal g2) * 16 + hexVal g3) * 16 + hexVal g4, r2)
      else none
    else none
  | _ => none

mutual
/-- Body of a JSON string after the opening quote.  Returns the decoded code
points and the input after the closing quote. -/
def parseStringBody : Nat → List Nat → Option (PyStr × List Nat)
  | 0, _ => none
  | _ + 1, [] => none
  | fuel + 1, c :: r =>
    if c == 34 then some ([], r)
    else if c == 92 then parseEscape fuel r
    else if c < 32 then none
    else (parseStringBody fuel r).map fun p => (c :: p.1, p.2)

/-- One escape sequence after the backslash.  A `\uXXXX` high surrogate
followed by a `\uXXXX` low surrogate joins into one code point; a lone
surrogate is kept as is (CPython behavior).  The fuel only bounds the
recursion; every call site supplies more fuel than the input length, and
every step consumes at least one input character, so the bound is never
hit. -/
def parseEscape : Nat → List Nat → Option (PyStr × List Nat)
  | 0, _ => none
  | _ + 1, [] => none
  | fuel + 1, e :: r =>
    if e == 34 then (parseStringBody fuel r).map fun p => (34 :: p.1, p.2)
    else if e == 92 then (parseStringBody fuel r).map fun p => (92 :: p.1, p.2)
    else if e == 47 then (parseStringBody fuel r).map fun p => (47 :: p.1, p.2)
    else if e == 98 then (parseStringBody fuel r).map fun p => (8 :: p.1, p.2)
    else if e == 102 then (parseStringBody fuel r).map fun p => (12 :: p.1, p.2)
    else if e == 110 then (parseStringBody fuel r).map fun p => (10 :: p.1, p.2)
    else if e == 114 then (parseStringBody fuel r).map fun p => (13 :: p.1, p.2)
    else if e == 116 then (parseStringBody fuel r).map fun p => (9 :: p.1, p.2)
    else if e == 117 then
      match r with
      | h1 :: h2 :: h3 :: h4 :: r1 =>
        if isHexDigit h1 && isHexDigit h2 && isHexDigit h3 && isHexDigit h4 then
          let u := ((hexVal h1 * 16 + hexVal h2) * 16 + hexVal h3) * 16 + hexVal h4
          if 55296 ≤ u && u ≤ 56319 then   -- high surrogate: peek a second escape
            match peekLowSurrogate r1 with
            | some (u2, r2) =>
              (parseStringBody fuel r2).map fun p =>
                ((65536 + (u - 55296) * 1024 + (u2 - 56320)) :: p.1, p.2)
            | none => (parseStringBody fuel r1).map fun p => (u :: p.1, p.2)
          else (parseStringBody fuel r1).map fun p => (u :: p.1, p.2)
        else none
      | _ => none
    else none
end

/-- Digits of an exponent, already past any sign. -/
def parseExpDigits (esign : Bool) (s1 : List Nat) : Option (Int × List Nat) :=
  if (s1.takeWhile isDigit).isEmpty then none
  else some (if esign then -(digitsVal (s1.takeWhile isDigit) : Int)
             else (digitsVal (s1.takeWhile isDigit) : Int), s1.dropWhile isDigit)

/-- Exponent part after the `e`/`E` marker: optional sign, then digits. -/
def parseExp (s : List Nat) : Option (Int × List Nat) :=
  if s.take 1 = [45] then parseExpDigits true (s.drop 1)
  else if s.take 1 = [43] then parseExpDigits false (s.drop 1)
  else parseExpDigits false s

/-- Decimal mantissa accumulated from the integer part and a fraction. -/
def fracMantissa (neg : Bool) (ival : Int) (fp : List Nat) : Int :=
  if neg then -(ival * (10 : Int) ^ fp.length + (digitsVal fp : Int))
  else ival * (10 : Int) ^ fp.length + (digitsVal fp : Int)

/-- Continuation of a number literal after its integer part: a
fraction, an exponent, or the end of the literal.  Integer literals give
`int`, any fraction or exponent gives `float`. -/
def parseIntTail (neg : Bool) (ival : Int) (s2 : List Nat) : Option (Json × List Nat) :=
  if s2.take 1 = [46] then
    if (((s2.drop 1).takeWhile isDigit)).isEmpty then none
    else
      if ((s2.drop 1).dropWhile isDigit).take 1 = [101]
          ∨ ((s2.drop 1).dropWhile isDigit).take 1 = [69] then
        match parseExp (((s2.drop 1).dropWhile isDigit).drop 1) with
        | some (ev, r) =>
          some (.num (.float (fracMantissa neg ival ((s2.drop 1).takeWhile isDigit))
            (ev - (((s2.drop 1).takeWhile isDigit).length : Int))), r)
        | none => none
      else
        some (.num (.float (fracMantissa neg ival ((s2.drop 1).takeWhile isDigit))
          (-((((s2.drop 1).takeWhile isDigit)).length : Int))),
          (s2.drop 1).dropWhile isDigit)
  else if s2.take 1 = [101] ∨ s2.take 1 = [69] then
    match parseExp (s2.drop 1) with
    | some (ev, r) => some (.num (.float (if neg then -ival else ival) ev), r)
    | none => none
  else some (.num (.int (if neg then -ival else ival)), s2)

/-- A number literal per `NUMBER_RE`: optional minus, integer part without
leading zeros, then `parseIntTail`. -/
def parseNumberCore (s : List Nat) : Option (Json × List Nat) :=
  if ((if s.take 1 = [45] then s.drop 1 else s).takeWhile isDigit).isEmpty then none
  else if ((if s.take 1 = [45] then s.drop 1 else s).takeWhile isDigit).head? = some 48
      ∧ ((if s.take 1 = [45] then s.drop 1 else s).takeWhile isDigit).length ≠ 1 then none
  else parseIntTail (if s.take 1 = [45] then true else false)
    (digitsVal ((if s.take 1 = [45] then s.drop 1 else s).takeWhile isDigit) : Int)
    ((if s.take 1 = [45] then s.drop 1 else s).dropWhile isDigit)

/-- A number or numeric constant at the current position: the scanner tries
`NUMBER_RE`, then the `NaN`/`Infinity`/`-Infinity` constants (checked here
first; the sets of inputs they accept are disjoint, so the order is
immaterial). -/
def parseNumber (s : List Nat) : Option (Json × List Nat) :=
  if s.take 3 = [78, 97, 78] then some (.num .nan, s.drop 3)
  else if s.take 8 = [73, 110, 102, 105, 110, 105, 116, 121] then
    some (.num .inf, s.drop 8)
  else if s.take 9 = [45, 73, 110, 102, 105, 110, 105, 116, 121] then
    some (.num .ninf, s.drop 9)
  else parseNumberCore s

mutual
/-- One JSON value at the current position (whitespace already skipped), as
the scanner's `scan_once`.  The fuel bounds the recursion depth;
`jsonParse` supplies enough fuel for every accepting run (each recursive
descent consumes at least one input character). -/
def parseValue : Nat → List Nat → Option (Json × List Nat)
  | 0, _ => none
  | _ + 1, [] => none
  | fuel + 1, c :: r =>
    if c == 34 then (parseStringBody (r.length + 1) r).map fun p => (Json.str p.1, p.2)
    else if c == 123 then   -- opening curly brace
      if (skipWS r).take 1 = [125] then some (.obj .nil, (skipWS r).drop 1)
      else parseMembersRest fuel (skipWS r) .nil
    else if c == 91 then    -- opening square bracket
      if (skipWS r).take 1 = [93] then some (.arr .nil, (skipWS r).drop 1)
      else (parseElemsRest fuel (skipWS r)).map fun p => (Json.arr p.1, p.2)
    else if (c :: r).take 4 = [110, 117, 108, 108] then some (.null, (c :: r).drop 4)
    else if (c :: r).take 4 = [116, 114, 117, 101] then some (.bool true, (c :: r).drop 4)
    else if (c :: r).take 5 = [102, 97, 108, 115, 101] then some (.bool false, (c :: r).drop 5)
    else parseNumber (c :: r)

/-- Members of an object after the opening brace (nonempty case): key string,
whitespace, colon, whitespace, value, whitespace, then a comma and the next
member or the closing brace. -/
def parseMembersRest : Nat → List Nat → JsonMembers → Option (Json × List Nat)
  | 0, _, _ => none
  | fuel + 1, s, acc =>
    if s.take 1 = [34] then
      (parseStringBody ((s.drop 1).length + 1) (s.drop 1)).bind fun kp =>
        if (skipWS kp.2).take 1 = [58] then
          (parseValue fuel (skipWS ((skipWS kp.2).drop 1))).bind fun vp =>
            if (skipWS vp.2).take 1 = [44] then
              parseMembersRest fuel (skipWS ((skipWS vp.2).drop 1)) (acc.insert kp.1 vp.1)
            else if (skipWS vp.2).take 1 = [125] then
              some (.obj (acc.insert kp.1 vp.1), (skipWS vp.2).drop 1)
            else none
        else none
    else none

/-- Elements of an array after the opening bracket (nonempty case): value,
whitespace, then a comma and the next element or the closing bracket. -/
def parseElemsRest : Nat → List Nat → Option (JsonElems × List Nat)
  | 0, _ => none
  | fuel + 1, s =>
    (parseValue fuel s).bind fun p =>
      if (skipWS p.2).take 1 = [44] then
        (parseElemsRest fuel (skipWS ((skipWS p.2).drop 1))).bind fun q =>
          some (.cons p.1 q.1, q.2)
      else if (skipWS p.2).take 1 = [93] then some (.cons p.1 .nil, (skipWS p.2).drop 1)
      else none
end

/-- `json.loads` on a Python string (`JSONDecoder.decode`): skip leading
whitespace, scan one value, and allow only trailing whitespace. -/
def jsonParse (s : PyStr) : Option Json :=
  match parseValue (s.length + 1) (skipWS s) with
  | some (v, rest) => if skipWS rest = [] then some v else none
  | none => none

/-! ### UTF-8 and the decode ladder -/

/-- UTF-8 continuation byte (0x80 to 0xBF). -/
def isCont (b : Nat) : Bool := 128 ≤ b && b ≤ 191

/-- Strict UTF-8 decoding of a byte sequence to code points, as Python
`bytes.decode("utf-8")`: rejects stray continuation bytes, overlong forms,
encoded surrogates, values beyond U+10FFFF and truncated sequences. -/
def utf8Decode : List Nat → Option PyStr
  | [] => some []
  | b :: rest =>
    if b ≤ 127 then (utf8Decode rest).map (b :: ·)
    else if b < 194 then none        -- continuation byte or overlong lead
    else if b ≤ 223 then
      match rest with
      | b1 :: r =>
        if isCont b1 then (utf8Decode r).map (((b - 192) * 64 + (b1 - 128)) :: ·)
        else none
      | [] => none
    else if b ≤ 239 then
      match rest with
      | b1 :: b2 :: r =>
        if isCont b1 && isCont b2
            && !(b == 224 && b1 < 160)     -- overlong three-byte form
            && !(b == 237 && 160 ≤ b1)     -- encoded surrogate
        then (utf8Decode r).map (((b - 224) * 4096 + (b1 - 128) * 64 + (b2 - 128)) :: ·)
        else none
      | _ => none
    else if b ≤ 244 then
      match rest with
      | b1 :: b2 :: b3 :: r =>
        if isCont b1 && isCont b2 && isCont b3
            && !(b == 240 && b1 < 144)     -- overlong four-byte form
            && !(b == 244 && 144 ≤ b1)     -- beyond U+10FFFF
        then (utf8Decode r).map
          (((b - 240) * 262144 + (b1 - 128) * 4096 + (b2 - 128) * 64 + (b3 - 128)) :: ·)
        else none
      | _ => none
    else none

/-- Model of `await request.json()` on the raw body bytes: Starlette runs
`json.loads(body)`, which on the common path decodes the bytes as UTF-8 and
scans them (`json.loads`' byte-order-mark sniffing of UTF-16/32 bodies is
platform plumbing not modelled; it changes nothing on UTF-8 bodies). -/
def pyJsonLoads (raw : List Nat) : Option Json :=
  (utf8Decode raw).bind jsonParse

/-- The tagged union the decode ladder produces: the `body`/`body_type` pair
of the handler. -/
inductive DecodedBody where
  | json (v : Json)
  | text (s : PyStr)
  | bytes (raw : List Nat)

/-- The `body_type` string recorded for each decode outcome. -/
def DecodedBody.tag : DecodedBody → PyStr
  | .json _ => pystr "json"
  | .text _ => pystr "text"
  | .bytes _ => pystr "bytes"

/-- The body decode ladder of `receive_webhook` (src/main.py lines 54 to 67):
try `await request.json()`; on any exception read the raw body and try
`raw.decode("utf-8")`; on any exception keep the raw bytes.  Each `except`
is the `none` branch of the corresponding `Option`; the final stage is
unconditional, so the ladder is a total function. -/
def decodeBody (raw : List Nat) : DecodedBody :=
  match pyJsonLoads raw with
  | some v => .json v
  | none =>
    match utf8Decode raw with
    | some s => .text s
    | none => .bytes raw

/-! ### Serialization for logging (src/main.py lines 69 to 73) -/

/-- Four lowercase hex digit characters of a value below 0x10000. -/
def hex4 (c : Nat) : List Nat :=
  [hexDigitChar (c / 4096 % 16), hexDigitChar (c / 256 % 16),
   hexDigitChar (c / 16 % 16), hexDigitChar (c % 16)]

/-- Eight lowercase hex digit characters. -/
def hex8 (c : Nat) : List Nat :=
  hex4 (c / 65536) ++ hex4 (c % 65536)

/-- Python `repr` of one byte inside a `bytes` literal with quote
character `q`: backslash and quote escapes, `\t`, `\n`, `\r`, printable
ASCII verbatim, `\xhh` otherwise. -/
def pyBytesReprChar (q b : Nat) : List Nat :=
  if b == 92 then [92, 92]
  else if b == q then [92, q]
  else if b == 9 then [92, 116]
  else if b == 10 then [92, 110]
  else if b == 13 then [92, 114]
  else if 32 ≤ b && b ≤ 126 then [b]
  else [92, 120, hexDigitChar (b / 16), hexDigitChar (b % 16)]

/-- Python `str()`/`repr()` of a `bytes` object: `b'...'`, using double
quotes when the bytes contain a single quote but no double quote. -/
def pyBytesRepr (bs : List Nat) : PyStr :=
  let q := if bs.contains 39 && !(bs.contains 34) then 34 else 39
  98 :: q :: (bs.map (pyBytesReprChar q)).flatten ++ [q]

/-- `json.dumps(body, ensure_ascii=False, default=str)` on the values the
handler's `body` variable can hold.  A parsed JSON structure and a decoded
`str` are directly serializable; raw `bytes` are not, so the encoder calls
`default`, and `str(bytes)` (the `b'...'` repr) is serialized as a JSON
string.  `default=str` returns a string for every object, so on these
(acyclic) values the dump cannot raise; the `Option` result mirrors the
`try` around the call. -/
def json_dumps_default : DecodedBody → Option PyStr
  | .json v => some (serJson v)
  | .text s => some (34 :: escapeString s ++ [34])
  | .bytes raw => some (34 :: escapeString (pyBytesRepr raw) ++ [34])

/-- Python `repr` of one character in a `str` literal with quote `q`.
Non-printable characters render as `\xhh`/`\uxxxx`/`\Uxxxxxxxx`;
printability is approximated by ASCII printability (the Unicode-category
table behind `str.isprintable` is not modelled; this function only feeds
the dead `str(body)` fallback, shown unreachable below). -/
def pyStrReprChar (q c : Nat) : List Nat :=
  if c == 92 then [92, 92]
  else if c == q then [92, q]
  else if c == 9 then [92, 116]
  else if c == 10 then [92, 110]
  else if c == 13 then [92, 114]
  else if 32 ≤ c && c ≤ 126 then [c]
  else if c < 256 then [92, 120, hexDigitChar (c / 16), hexDigitChar (c % 16)]
  else if c < 65536 then 92 :: 117 :: hex4 c
  else 92 :: 85 :: hex8 c

/-- Python `repr` of a `str`: quoted with `'`, or with `"` when the string
contains `'` but no `"`. -/
def pyStrRepr (s : PyStr) : PyStr :=
  let q := if s.contains 39 && !(s.contains 34) then 34 else 39
  q :: (s.map (pyStrReprChar q)).flatten ++ [q]

/-- Printed form of a number under `repr` (`str` of the Python value). -/
def pyReprNum : JsonNum → PyStr
  | .int n => serInt n
  | .float m e => serFloat m e
  | .nan => pystr "nan"
  | .inf => pystr "inf"
  | .ninf => pystr "-inf"

mutual
/-- Python `repr` of a parsed JSON value (dict/list literals with
single-quoted strings, `True`/`False`/`None`). -/
def pyRepr : Json → PyStr
  | .null => pystr "None"
  | .bool true => pystr "True"
  | .bool false => pystr "False"
  | .num n => pyReprNum n
  | .str s => pyStrRepr s
  | .arr .nil => [91, 93]
  | .arr (.cons x xs) => 91 :: pyRepr x ++ pyReprElems xs ++ [93]
  | .obj .nil => [123, 125]
  | .obj (.cons k v ms) =>
      123 :: pyStrRepr k ++ [58, 32] ++ pyRepr v ++ pyReprMembers ms ++ [125]

/-- Remaining list items under `repr`. -/
def pyReprElems : JsonElems → PyStr
  | .nil => []
  | .cons x xs => 44 :: 32 :: pyRepr x ++ pyReprElems xs

/-- Remaining dict items under `repr`. -/
def pyReprMembers : JsonMembers → PyStr
  | .nil => []
  | .cons k v ms => 44 :: 32 :: pyStrRepr k ++ [58, 32] ++ pyRepr v ++ pyReprMembers ms
end

/-- Python `str()` of the possible `body` values: a `str` is returned
itself, everything else renders by `repr`. -/
def pyStrOf : DecodedBody → PyStr
  | .json (.str s) => s
  | .json v => pyRepr v
  | .text s => s
  | .bytes raw => pyBytesRepr raw

/-- Lines 69 to 73 of src/main.py: `serialized_body = json.dumps(body,
ensure_ascii=False, default=str)`, with `serialized_body = str(body)` on
any exception. -/
def serialize_body (body : DecodedBody) : PyStr :=
  match json_dumps_default body with
  | some s => s
  | none => pyStrOf body

/-! ### The handler -/

/-- `request.client` (a `starlette` `Address`): peer host and port. -/
structure Address where
  host : PyStr
  port : Nat

/-- The parts of the inbound request the handler reads. -/
structure Request where
  client : Option Address
  headers : List (PyStr × PyStr)
  rawBody : List Nat

/-- Python `logging` severities used by the app. -/
inductive LogLevel where
  | debug
  | info
  | warning
  | error
deriving DecidableEq

/-- One emitted structured log record: the severity and message of the
`logger.info` call plus the `extra` fields. -/
structure LogRecord where
  level : LogLevel
  message : PyStr
  source : PyStr
  client_ip : Option PyStr
  headers : List (PyStr × PyStr)
  body_type : PyStr
  body : PyStr

/-- A `JSONResponse`: HTTP status (200 by default) and JSON content. -/
structure Response where
  status : Nat
  content : Json

/-- The JSON content `{"received": True, "status": "ok"}` of line 88
(written with escaped braces: an object with the key "received" mapped to
true and the key "status" mapped to the string "ok"). -/
def responseContent : Json :=
  .obj (.cons (pystr "received") (.bool true)
    (.cons (pystr "status") (.str (pystr "ok")) .nil))

/-- The `/webhook` handler `receive_webhook` (src/main.py lines 39 to 88),
as a function from the request to the list of emitted log records and the
response.  The initial `body = None` / `body_type = "unknown"` assignments
of lines 54 and 55 are dead: the ladder always overwrites both. -/
def receive_webhook (request : Request) : List LogRecord × Response :=
  -- client_ip: Optional[str] = None; if request.client: client_ip = request.client.host
  let client_ip : Option PyStr :=
    match request.client with
    | some c => some c.host
    | none => none
  -- headers = {k: v for k, v in request.headers.items()}
  let headers := request.headers
  -- the decode ladder, lines 54 to 67
  let body := decodeBody request.rawBody
  -- safe serialization, lines 69 to 73
  let serialized_body := serialize_body body
  -- logger.info("Received webhook event", extra={...}), lines 75 to 84
  let record : LogRecord :=
    { level := .info
      message := pystr "Received webhook event"
      source := pystr "bettervoice"
      client_ip := client_ip
      headers := headers
      body_type := body.tag
      body := serialized_body }
  ([record], { status := 200, content := responseContent })

/-- The input begins with a character that cannot extend a number literal
(or is empty); true after every separator or closer the encoder emits. -/
def NumBoundary : List Nat → Prop
  | [] => True
  | c :: _ => isDigit c = false ∧ c ≠ 46 ∧ c ≠ 101 ∧ c ≠ 69

mutual
/-- Keys of every object inside the value are pairwise distinct — true of
everything the scanner produces (Python `dict`s). -/
inductive JsonWF : Json → Prop
  | null : JsonWF .null
  | bool (b : Bool) : JsonWF (.bool b)
  | num (n : JsonNum) : JsonWF (.num n)
  | str (s : PyStr) : JsonWF (.str s)
  | arr {xs : JsonElems} : ElemsWF xs → JsonWF (.arr xs)
  | obj {ms : JsonMembers} : MembersWF ms → JsonWF (.obj ms)

/-- Well-formedness of array elements. -/
inductive ElemsWF : JsonElems → Prop
  | nil : ElemsWF .nil
  | cons {x : Json} {xs : JsonElems} : JsonWF x → ElemsWF xs → ElemsWF (.cons x xs)

/-- Well-formedness of object members: values well-formed and the head key
absent from the tail. -/
inductive MembersWF : JsonMembers → Prop
  | nil : MembersWF .nil
  | cons {k : PyStr} {v : Json} {ms : JsonMembers} :
      JsonWF v → MembersWF ms → ms.hasKey k = false → MembersWF (.cons k v ms)
end

mutual
/-- Recursion budget the scanner needs on the printed form of a value. -/
def jsonFuel : Json → Nat
  | .arr xs => elemsFuel xs + 1
  | .obj ms => membersFuel ms + 1
  | _ => 1

/-- Budget for the members of a printed array. -/
def elemsFuel : JsonElems → Nat
  | .nil => 0
  | .cons x xs => jsonFuel x + elemsFuel xs + 1

/-- Budget for the members of a printed object. -/
def membersFuel : JsonMembers → Nat
  | .nil => 0
  | .cons _ v ms => jsonFuel v + membersFuel ms + 1
end

/-! ## Round-trip development for the JSON model

The scanner re-reads everything the encoder prints: for every well-formed
value (object keys pairwise distinct, as in every scanner output),
`jsonParse (serJson v) = some v`. -/


theorem natDigits_ne_nil (n : Nat) : natDigits n ≠ [] := by
  rw [natDigits]
  split <;> simp

theorem mem_natDigits_isDigit (n : Nat) : ∀ c ∈ natDigits n, isDigit c = true := by
  induction n using natDigits.induct with
  | case1 n h =>
    intro c hc
    rw [natDigits, if_pos h] at hc
    simp at hc
    simp [hc, isDigit]
    omega
  | case2 n h ih =>
    intro c hc
    rw [natDigits, if_neg h] at hc
    rcases List.mem_append.mp hc with h1 | h2
    · exact ih c h1
    · simp at h2
      simp [h2, isDigit]
      omega

theorem foldl_digits_snoc (ds : List Nat) (d : Nat) : ∀ a : Nat,
    (ds ++ [d]).foldl (fun x c => x * 10 + (c - 48)) a
      = (ds.foldl (fun x c => x * 10 + (c - 48)) a) * 10 + (d - 48) := by
  induction ds with
  | nil => intro a; rfl
  | cons c cs ih => intro a; simp only [List.cons_append, List.foldl_cons]; exact ih _

/-- Reading back the printed digits of `n` gives `n`. -/
theorem digitsVal_natDigits (n : Nat) : digitsVal (natDigits n) = n := by
  induction n using natDigits.induct with
  | case1 n h =>
    rw [digitsVal, natDigits, if_pos h]
    simp
  | case2 n h ih =>
    rw [digitsVal, natDigits, if_neg h, foldl_digits_snoc]
    rw [digitsVal] at ih
    rw [ih]
    omega

/-- A positive number never prints with a leading zero digit. -/
theorem natDigits_head_ne_zero (n : Nat) (hn : 0 < n) :
    ∀ c t, natDigits n = c :: t → c ≠ 48 := by
  induction n using natDigits.induct with
  | case1 n h =>
    intro c t hct
    rw [natDigits, if_pos h] at hct
    simp at hct
    omega
  | case2 n h ih =>
    intro c t hct
    rw [natDigits, if_neg h] at hct
    rcases hd : natDigits (n / 10) with _ | ⟨c0, t0⟩
    · exact absurd hd (natDigits_ne_nil _)
    · rw [hd] at hct
      simp at hct
      have : 0 < n / 10 := by omega
      have := ih this c0 t0 hd
      omega

theorem natDigits_zero : natDigits 0 = [48] := by rw [natDigits]; simp

theorem peekLowSurrogate_length {s : List Nat} {u2 : Nat} {r2 : List Nat}
    (h : peekLowSurrogate s = some (u2, r2)) : r2.length + 6 = s.length := by
  unfold peekLowSurrogate at h
  split at h
  · split at h
    · split at h
      · simp only [Option.some.injEq, Prod.mk.injEq] at h
        obtain ⟨h1, h2⟩ := h
        subst h2
        simp only [List.length_cons]
      · exact absurd h (by simp)
    · exact absurd h (by simp)
  · exact absurd h (by simp)

theorem takeWhile_append_all {p : Nat → Bool} {xs : List Nat} (h : ∀ x ∈ xs, p x = true) :
    ∀ ys, (xs ++ ys).takeWhile p = xs ++ ys.takeWhile p := by
  induction xs with
  | nil => intro ys; simp
  | cons a as ih =>
    intro ys
    simp only [List.cons_append, List.takeWhile_cons, h a (by simp)]
    simp [ih (fun x hx => h x (by simp [hx]))]

theorem dropWhile_append_all {p : Nat → Bool} {xs : List Nat} (h : ∀ x ∈ xs, p x = true) :
    ∀ ys, (xs ++ ys).dropWhile p = ys.dropWhile p := by
  induction xs with
  | nil => intro ys; simp
  | cons a as ih =>
    intro ys
    simp only [List.cons_append, List.dropWhile_cons, h a (by simp)]
    exact ih (fun x hx => h x (by simp [hx])) ys

theorem skipWS_cons_not_ws {c : Nat} (h : isJsonWS c = false) (t : List Nat) :
    skipWS (c :: t) = c :: t := by
  simp [skipWS, List.dropWhile_cons, h]

theorem skipWS_cons_ws {c : Nat} (h : isJsonWS c = true) (t : List Nat) :
    skipWS (c :: t) = skipWS t := by
  simp [skipWS, List.dropWhile_cons, h]


theorem numBoundary_nil : NumBoundary [] := trivial

theorem numBoundary_comma (t : List Nat) : NumBoundary (44 :: t) := by
  refine ⟨by decide, by decide, by decide, by decide⟩

theorem numBoundary_rbracket (t : List Nat) : NumBoundary (93 :: t) := by
  refine ⟨by decide, by decide, by decide, by decide⟩

theorem numBoundary_rbrace (t : List Nat) : NumBoundary (125 :: t) := by
  refine ⟨by decide, by decide, by decide, by decide⟩

theorem numBoundary_take_drop {rest : List Nat} (hb : NumBoundary rest) :
    rest.takeWhile isDigit = [] ∧ rest.dropWhile isDigit = rest := by
  cases rest with
  | nil => exact ⟨rfl, rfl⟩
  | cons c t =>
    obtain ⟨h1, _, _, _⟩ := hb
    exact ⟨by simp [List.takeWhile_cons, h1], by simp [List.dropWhile_cons, h1]⟩

/-- Splitting the digit prefix of printed digits followed by a non-digit. -/
theorem digits_span (n : Nat) {rest : List Nat}
    (h1 : rest.takeWhile isDigit = []) (h2 : rest.dropWhile isDigit = rest) :
    (natDigits n ++ rest).takeWhile isDigit = natDigits n ∧
    (natDigits n ++ rest).dropWhile isDigit = rest := by
  constructor
  · rw [takeWhile_append_all (mem_natDigits_isDigit n), h1, List.append_nil]
  · rw [dropWhile_append_all (mem_natDigits_isDigit n), h2]

theorem head_not_digit_span {c : Nat} (h : isDigit c = false) (t : List Nat) :
    (c :: t).takeWhile isDigit = [] ∧ (c :: t).dropWhile isDigit = c :: t :=
  ⟨by simp [List.takeWhile_cons, h], by simp [List.dropWhile_cons, h]⟩

theorem natDigits_no_leading_zero (n : Nat) :
    ¬((natDigits n).head? = some 48 ∧ (natDigits n).length ≠ 1) := by
  rcases Nat.eq_zero_or_pos n with h0 | hpos
  · subst h0
    rw [natDigits_zero]
    simp
  · rcases hd : natDigits n with _ | ⟨c, t⟩
    · exact absurd hd (natDigits_ne_nil n)
    · have hne := natDigits_head_ne_zero n hpos c t hd
      rintro ⟨hc, _⟩
      exact hne (by simpa using hc)

theorem take_one_cons (c : Nat) (t : List Nat) : (c :: t).take 1 = [c] := rfl

/-- `parseExpDigits` reads back printed digits. -/
theorem parseExpDigits_digits (b : Bool) (n : Nat) {rest : List Nat}
    (h1 : rest.takeWhile isDigit = []) (h2 : rest.dropWhile isDigit = rest) :
    parseExpDigits b (natDigits n ++ rest)
      = some (if b then -(n : Int) else (n : Int), rest) := by
  obtain ⟨hs1, hs2⟩ := digits_span n h1 h2
  unfold parseExpDigits
  rw [hs1, hs2]
  have hne : (natDigits n).isEmpty = false := by
    rcases hd : natDigits n with _ | ⟨c, t⟩
    · exact absurd hd (natDigits_ne_nil n)
    · rfl
  rw [hne]
  simp [digitsVal_natDigits]

/-- Reduction of `parseExp` at a minus sign. -/
theorem parseExp_cons_neg (t : List Nat) : parseExp (45 :: t) = parseExpDigits true t := rfl

/-- Reduction of `parseExp` at a digit. -/
theorem parseExp_digit {d : Nat} (hdig : isDigit d = true) (t : List Nat) :
    parseExp (d :: t) = parseExpDigits false (d :: t) := by
  have h45 : d ≠ 45 := by simp [isDigit] at hdig; omega
  have h43 : d ≠ 43 := by simp [isDigit] at hdig; omega
  rw [parseExp, if_neg (by simp [take_one_cons, h45]), if_neg (by simp [take_one_cons, h43])]

/-- `parseExp` reads back a printed integer exponent. -/
theorem parseExp_serInt (e : Int) {rest : List Nat}
    (h1 : rest.takeWhile isDigit = []) (h2 : rest.dropWhile isDigit = rest) :
    parseExp (serInt e ++ rest) = some (e, rest) := by
  by_cases he : e < 0
  · have hser : serInt e = 45 :: natDigits e.natAbs := by rw [serInt, if_pos he]
    rw [hser, List.cons_append, parseExp_cons_neg,
      parseExpDigits_digits true e.natAbs h1 h2]
    have hval : -(e.natAbs : Int) = e := by omega
    have hif : (if (true : Bool) then -(e.natAbs : Int) else (e.natAbs : Int))
        = -(e.natAbs : Int) := rfl
    rw [hif, hval]
  · have hser : serInt e = natDigits e.natAbs := by rw [serInt, if_neg he]
    rcases hd : natDigits e.natAbs with _ | ⟨d, t⟩
    · exact absurd hd (natDigits_ne_nil _)
    · have hdig : isDigit d = true := mem_natDigits_isDigit e.natAbs d (by rw [hd]; simp)
      rw [hser, hd, List.cons_append, parseExp_digit hdig, ← List.cons_append, ← hd,
        parseExpDigits_digits false e.natAbs h1 h2]
      have hval : (e.natAbs : Int) = e := by omega
      have hif : (if (false : Bool) then -(e.natAbs : Int) else (e.natAbs : Int))
          = (e.natAbs : Int) := rfl
      rw [hif, hval]

/-- `parseIntTail` at a boundary closes an integer literal. -/
theorem parseIntTail_boundary (neg : Bool) (ival : Int) {s2 : List Nat}
    (hb : NumBoundary s2) :
    parseIntTail neg ival s2 = some (.num (.int (if neg then -ival else ival)), s2) := by
  unfold parseIntTail
  cases s2 with
  | nil => simp
  | cons c t =>
    obtain ⟨_, h46, h101, h69⟩ := hb
    rw [take_one_cons]
    rw [if_neg (by simp [h46]), if_neg (by rintro (h | h) <;> simp_all)]

/-- `parseIntTail` reads back a printed exponent marker and exponent. -/
theorem parseIntTail_exp (neg : Bool) (ival : Int) (e : Int) {rest : List Nat}
    (h1 : rest.takeWhile isDigit = []) (h2 : rest.dropWhile isDigit = rest) :
    parseIntTail neg ival (101 :: (serInt e ++ rest))
      = some (.num (.float (if neg then -ival else ival) e), rest) := by
  unfold parseIntTail
  rw [take_one_cons]
  rw [if_neg (by simp), if_pos (Or.inl rfl)]
  simp only [List.drop_succ_cons, List.drop_zero]
  rw [parseExp_serInt e h1 h2]

/-- Reduction of `parseNumberCore` at a minus sign. -/
theorem parseNumberCore_cons_neg (t : List Nat) :
    parseNumberCore (45 :: t) =
      (if (t.takeWhile isDigit).isEmpty then none
       else if (t.takeWhile isDigit).head? = some 48 ∧ (t.takeWhile isDigit).length ≠ 1 then
         none
       else parseIntTail true (digitsVal (t.takeWhile isDigit) : Int)
         (t.dropWhile isDigit)) := rfl

/-- Reduction of `parseNumberCore` at a digit. -/
theorem parseNumberCore_cons_digit {d : Nat} (hdig : isDigit d = true) (t : List Nat) :
    parseNumberCore (d :: t) =
      (if ((d :: t).takeWhile isDigit).isEmpty then none
       else if ((d :: t).takeWhile isDigit).head? = some 48
           ∧ ((d :: t).takeWhile isDigit).length ≠ 1 then none
       else parseIntTail false (digitsVal ((d :: t).takeWhile isDigit) : Int)
         ((d :: t).dropWhile isDigit)) := by
  have h45 : d ≠ 45 := by simp [isDigit] at hdig; omega
  rw [parseNumberCore,
    if_neg (show ¬(List.take 1 (d :: t) = [45]) from by simp [take_one_cons, h45]),
    if_neg (show ¬(List.take 1 (d :: t) = [45]) from by simp [take_one_cons, h45])]

/-- `parseNumberCore` reads back a printed integer. -/
theorem parseNumberCore_serInt (n : Int) {rest : List Nat} (hb : NumBoundary rest) :
    parseNumberCore (serInt n ++ rest) = some (.num (.int n), rest) := by
  obtain ⟨hr1, hr2⟩ := numBoundary_take_drop hb
  obtain ⟨hs1, hs2⟩ := digits_span n.natAbs hr1 hr2
  have hne : (natDigits n.natAbs).isEmpty = false := by
    rcases hd : natDigits n.natAbs with _ | ⟨c, t⟩
    · exact absurd hd (natDigits_ne_nil _)
    · rfl
  by_cases hn : n < 0
  · have hser : serInt n = 45 :: natDigits n.natAbs := by rw [serInt, if_pos hn]
    rw [hser, List.cons_append, parseNumberCore_cons_neg, hs1, hs2]
    rw [if_neg (by rw [hne]; simp), if_neg (natDigits_no_leading_zero n.natAbs),
      parseIntTail_boundary true _ hb]
    have hval : -(digitsVal (natDigits n.natAbs) : Int) = n := by
      rw [digitsVal_natDigits]; omega
    simp [hval]
  · have hser : serInt n = natDigits n.natAbs := by rw [serInt, if_neg hn]
    rcases hd : natDigits n.natAbs with _ | ⟨d, t⟩
    · exact absurd hd (natDigits_ne_nil _)
    · have hdig : isDigit d = true := mem_natDigits_isDigit n.natAbs d (by rw [hd]; simp)
      rw [hser, hd, List.cons_append, parseNumberCore_cons_digit hdig,
        ← List.cons_append, ← hd, hs1, hs2]
      rw [if_neg (by rw [hne]; simp), if_neg (natDigits_no_leading_zero n.natAbs),
        parseIntTail_boundary false _ hb]
      have hval : (digitsVal (natDigits n.natAbs) : Int) = n := by
        rw [digitsVal_natDigits]; omega
      simp [hval]

/-- `parseNumberCore` reads back a printed float. -/
theorem parseNumberCore_serFloat (m e : Int) {rest : List Nat} (hb : NumBoundary rest) :
    parseNumberCore (serFloat m e ++ rest) = some (.num (.float m e), rest) := by
  obtain ⟨hr1, hr2⟩ := numBoundary_take_drop hb
  obtain ⟨hm1, hm2⟩ := head_not_digit_span (c := 101) (by decide) (serInt e ++ rest)
  obtain ⟨hs1, hs2⟩ := digits_span m.natAbs hm1 hm2
  have hne : (natDigits m.natAbs).isEmpty = false := by
    rcases hd : natDigits m.natAbs with _ | ⟨c, t⟩
    · exact absurd hd (natDigits_ne_nil _)
    · rfl
  have hassoc : serFloat m e ++ rest = serInt m ++ (101 :: (serInt e ++ rest)) := by
    simp [serFloat]
  rw [hassoc]
  by_cases hn : m < 0
  · have hser : serInt m = 45 :: natDigits m.natAbs := by rw [serInt, if_pos hn]
    rw [hser, List.cons_append, parseNumberCore_cons_neg, hs1, hs2]
    rw [if_neg (by rw [hne]; simp), if_neg (natDigits_no_leading_zero m.natAbs),
      parseIntTail_exp true _ e hr1 hr2]
    have hval : -(digitsVal (natDigits m.natAbs) : Int) = m := by
      rw [digitsVal_natDigits]; omega
    simp [hval]
  · have hser : serInt m = natDigits m.natAbs := by rw [serInt, if_neg hn]
    rcases hd : natDigits m.natAbs with _ | ⟨d, t⟩
    · exact absurd hd (natDigits_ne_nil _)
    · have hdig : isDigit d = true := mem_natDigits_isDigit m.natAbs d (by rw [hd]; simp)
      rw [hser, hd, List.cons_append, parseNumberCore_cons_digit hdig,
        ← List.cons_append, ← hd, hs1, hs2]
      rw [if_neg (by rw [hne]; simp), if_neg (natDigits_no_leading_zero m.natAbs),
        parseIntTail_exp false _ e hr1 hr2]
      have hval : (digitsVal (natDigits m.natAbs) : Int) = m := by
        rw [digitsVal_natDigits]; omega
      simp [hval]

theorem isHexDigit_hexDigitChar {n : Nat} (h : n < 16) :
    isHexDigit (hexDigitChar n) = true := by
  unfold isHexDigit hexDigitChar isDigit
  by_cases h10 : n < 10 <;> simp [h10] <;> omega

theorem hexVal_hexDigitChar {n : Nat} (h : n < 16) : hexVal (hexDigitChar n) = n := by
  unfold hexVal hexDigitChar isDigit
  by_cases h10 : n < 10
  · rw [if_pos h10, if_pos (by simp; omega)]
    omega
  · rw [if_neg h10, if_neg (by simp; omega), if_pos (by omega)]
    omega

/-- One-step reductions of the string scanner at known characters. -/
theorem parseStringBody_quote (f : Nat) (t : List Nat) :
    parseStringBody (f + 1) (34 :: t) = some ([], t) := rfl

theorem parseStringBody_backslash (f : Nat) (t : List Nat) :
    parseStringBody (f + 1) (92 :: t) = parseEscape f t := rfl

theorem parseStringBody_raw {c : Nat} (h34 : ¬(c = 34)) (h92 : ¬(c = 92))
    (hge : ¬(c < 32)) (f : Nat) (t : List Nat) :
    parseStringBody (f + 1) (c :: t)
      = (parseStringBody f t).map fun p => (c :: p.1, p.2) := by
  rw [parseStringBody, if_neg (by simp [h34]), if_neg (by simp [h92]),
    if_neg (by simp [hge])]

theorem parseEscape_34 (f : Nat) (t : List Nat) :
    parseEscape (f + 1) (34 :: t) = (parseStringBody f t).map fun p => (34 :: p.1, p.2) := rfl

theorem parseEscape_92 (f : Nat) (t : List Nat) :
    parseEscape (f + 1) (92 :: t) = (parseStringBody f t).map fun p => (92 :: p.1, p.2) := rfl

theorem parseEscape_98 (f : Nat) (t : List Nat) :
    parseEscape (f + 1) (98 :: t) = (parseStringBody f t).map fun p => (8 :: p.1, p.2) := rfl

theorem parseEscape_116 (f : Nat) (t : List Nat) :
    parseEscape (f + 1) (116 :: t) = (parseStringBody f t).map fun p => (9 :: p.1, p.2) := rfl

theorem parseEscape_110 (f : Nat) (t : List Nat) :
    parseEscape (f + 1) (110 :: t) = (parseStringBody f t).map fun p => (10 :: p.1, p.2) := rfl

theorem parseEscape_102 (f : Nat) (t : List Nat) :
    parseEscape (f + 1) (102 :: t) = (parseStringBody f t).map fun p => (12 :: p.1, p.2) := rfl

theorem parseEscape_114 (f : Nat) (t : List Nat) :
    parseEscape (f + 1) (114 :: t) = (parseStringBody f t).map fun p => (13 :: p.1, p.2) := rfl

/-- Reduction of the escape scanner at an encoder-printed `\u00xx` escape of
a control character. -/
theorem parseEscape_u00 {c : Nat} (hc : c < 32) (f : Nat) (t : List Nat) :
    parseEscape (f + 1)
        (117 :: 48 :: 48 :: hexDigitChar (c / 16) :: hexDigitChar (c % 16) :: t)
      = (parseStringBody f t).map fun p => (c :: p.1, p.2) := by
  have hista := isHexDigit_hexDigitChar (show c / 16 < 16 by omega)
  have histb := isHexDigit_hexDigitChar (show c % 16 < 16 by omega)
  have ha := hexVal_hexDigitChar (show c / 16 < 16 by omega)
  have hb := hexVal_hexDigitChar (show c % 16 < 16 by omega)
  have hu : ((hexVal 48 * 16 + hexVal 48) * 16 + hexVal (hexDigitChar (c / 16))) * 16
      + hexVal (hexDigitChar (c % 16)) = c := by
    rw [ha, hb]
    have h48 : hexVal 48 = 0 := by decide
    rw [h48]
    omega
  simp [parseEscape, hista, histb, hu, show isHexDigit 48 = true from by decide,
    show ¬(55296 ≤ c) from by omega]

/-- The scanner reads back one encoder-escaped string body, consuming the
closing quote. -/
theorem parseStringBody_escape (s : PyStr) : ∀ f rest,
    (escapeString s).length + 1 ≤ f →
    parseStringBody f (escapeString s ++ 34 :: rest) = some (s, rest) := by
  induction s with
  | nil =>
    intro f rest hf
    obtain ⟨f1, rfl⟩ : ∃ g, f = g + 1 := ⟨f - 1, by omega⟩
    rw [show escapeString [] ++ 34 :: rest = 34 :: rest from rfl, parseStringBody_quote]
  | cons c cs ih =>
    intro f rest hf
    rw [show escapeString (c :: cs) = escapeChar c ++ escapeString cs from rfl] at hf ⊢
    rw [List.append_assoc]
    by_cases h34 : c = 34
    · subst h34
      rw [show escapeChar 34 = [92, 34] from rfl] at hf ⊢
      simp only [List.length_append, List.length_cons, List.length_nil] at hf
      obtain ⟨f1, rfl⟩ : ∃ g, f = g + 1 := ⟨f - 1, by omega⟩
      obtain ⟨f2, rfl⟩ : ∃ g, f1 = g + 1 := ⟨f1 - 1, by omega⟩
      simp only [List.cons_append, List.nil_append]
      rw [parseStringBody_backslash, parseEscape_34, ih f2 rest (by omega)]
      rfl
    · by_cases h92 : c = 92
      · subst h92
        rw [show escapeChar 92 = [92, 92] from rfl] at hf ⊢
        simp only [List.length_append, List.length_cons, List.length_nil] at hf
        obtain ⟨f1, rfl⟩ : ∃ g, f = g + 1 := ⟨f - 1, by omega⟩
        obtain ⟨f2, rfl⟩ : ∃ g, f1 = g + 1 := ⟨f1 - 1, by omega⟩
        simp only [List.cons_append, List.nil_append]
        rw [parseStringBody_backslash, parseEscape_92, ih f2 rest (by omega)]
        rfl
      · by_cases h8 : c = 8
        · subst h8
          rw [show escapeChar 8 = [92, 98] from rfl] at hf ⊢
          simp only [List.length_append, List.length_cons, List.length_nil] at hf
          obtain ⟨f1, rfl⟩ : ∃ g, f = g + 1 := ⟨f - 1, by omega⟩
          obtain ⟨f2, rfl⟩ : ∃ g, f1 = g + 1 := ⟨f1 - 1, by omega⟩
          simp only [List.cons_append, List.nil_append]
          rw [parseStringBody_backslash, parseEscape_98, ih f2 rest (by omega)]
          rfl
        · by_cases h9 : c = 9
          · subst h9
            rw [show escapeChar 9 = [92, 116] from rfl] at hf ⊢
            simp only [List.length_append, List.length_cons, List.length_nil] at hf
            obtain ⟨f1, rfl⟩ : ∃ g, f = g + 1 := ⟨f - 1, by omega⟩
            obtain ⟨f2, rfl⟩ : ∃ g, f1 = g + 1 := ⟨f1 - 1, by omega⟩
            simp only [List.cons_append, List.nil_append]
            rw [parseStringBody_backslash, parseEscape_116, ih f2 rest (by omega)]
            rfl
          · by_cases h10 : c = 10
            · subst h10
              rw [show escapeChar 10 = [92, 110] from rfl] at hf ⊢
              simp only [List.length_append, List.length_cons, List.length_nil] at hf
              obtain ⟨f1, rfl⟩ : ∃ g, f = g + 1 := ⟨f - 1, by omega⟩
              obtain ⟨f2, rfl⟩ : ∃ g, f1 = g + 1 := ⟨f1 - 1, by omega⟩
              simp only [List.cons_append, List.nil_append]
              rw [parseStringBody_backslash, parseEscape_110, ih f2 rest (by omega)]
              rfl
            · by_cases h12 : c = 12
              · subst h12
                rw [show escapeChar 12 = [92, 102] from rfl] at hf ⊢
                simp only [List.length_append, List.length_cons, List.length_nil] at hf
                obtain ⟨f1, rfl⟩ : ∃ g, f = g + 1 := ⟨f - 1, by omega⟩
                obtain ⟨f2, rfl⟩ : ∃ g, f1 = g + 1 := ⟨f1 - 1, by omega⟩
                simp only [List.cons_append, List.nil_append]
                rw [parseStringBody_backslash, parseEscape_102, ih f2 rest (by omega)]
                rfl
              · by_cases h13 : c = 13
                · subst h13
                  rw [show escapeChar 13 = [92, 114] from rfl] at hf ⊢
                  simp only [List.length_append, List.length_cons, List.length_nil] at hf
                  obtain ⟨f1, rfl⟩ : ∃ g, f = g + 1 := ⟨f - 1, by omega⟩
                  obtain ⟨f2, rfl⟩ : ∃ g, f1 = g + 1 := ⟨f1 - 1, by omega⟩
                  simp only [List.cons_append, List.nil_append]
                  rw [parseStringBody_backslash, parseEscape_114, ih f2 rest (by omega)]
                  rfl
                · by_cases hlt : c < 32
                  · -- control character, printed as a `\u00xx` escape
                    have hesc : escapeChar c
                        = [92, 117, 48, 48, hexDigitChar (c / 16), hexDigitChar (c % 16)] := by
                      unfold escapeChar
                      rw [if_neg (by simp [h34]), if_neg (by simp [h92]),
                        if_neg (by simp [h8]), if_neg (by simp [h9]),
                        if_neg (by simp [h10]), if_neg (by simp [h12]),
                        if_neg (by simp [h13]), if_pos hlt]
                    rw [hesc] at hf ⊢
                    simp only [List.length_append, List.length_cons, List.length_nil] at hf
                    obtain ⟨f1, rfl⟩ : ∃ g, f = g + 1 := ⟨f - 1, by omega⟩
                    obtain ⟨f2, rfl⟩ : ∃ g, f1 = g + 1 := ⟨f1 - 1, by omega⟩
                    simp only [List.cons_append, List.nil_append]
                    rw [parseStringBody_backslash, parseEscape_u00 hlt,
                      ih f2 rest (by omega)]
                    rfl
                  · -- ordinary character, printed verbatim
                    have hesc : escapeChar c = [c] := by
                      unfold escapeChar
                      rw [if_neg (by simp [h34]), if_neg (by simp [h92]),
                        if_neg (by simp [h8]), if_neg (by simp [h9]),
                        if_neg (by simp [h10]), if_neg (by simp [h12]),
                        if_neg (by simp [h13]), if_neg hlt]
                    rw [hesc] at hf ⊢
                    simp only [List.length_append, List.length_cons, List.length_nil] at hf
                    obtain ⟨f1, rfl⟩ : ∃ g, f = g + 1 := ⟨f - 1, by omega⟩
                    simp only [List.cons_append, List.nil_append]
                    rw [parseStringBody_raw h34 h92 hlt, ih f1 rest (by omega)]
                    rfl


theorem JsonMembers.hasKey_append (a b : JsonMembers) (key : PyStr) :
    (a.append b).hasKey key = (a.hasKey key || b.hasKey key) := by
  match a with
  | .nil => simp [JsonMembers.append, JsonMembers.hasKey]
  | .cons k v tl =>
    simp [JsonMembers.append, JsonMembers.hasKey,
      JsonMembers.hasKey_append tl b key, Bool.or_assoc]

theorem JsonMembers.insert_of_not_hasKey {acc : JsonMembers} {k : PyStr}
    (h : acc.hasKey k = false) (v : Json) :
    acc.insert k v = acc.append (.cons k v .nil) := by
  match acc, h with
  | .nil, _ => rfl
  | .cons k1 w tl, h =>
    rw [JsonMembers.hasKey] at h
    simp only [Bool.or_eq_false_iff] at h
    rw [JsonMembers.insert, if_neg (by simp [h.1]), JsonMembers.append,
      JsonMembers.insert_of_not_hasKey h.2 v]

theorem JsonMembers.append_cons_assoc (acc : JsonMembers) (k : PyStr) (v : Json)
    (ms : JsonMembers) :
    (acc.append (.cons k v .nil)).append ms = acc.append (.cons k v ms) := by
  match acc with
  | .nil => rfl
  | .cons k1 w tl =>
    rw [JsonMembers.append, JsonMembers.append,
      JsonMembers.append_cons_assoc tl k v ms]
    rfl

/-- The head character of a printed integer: a minus sign or a digit. -/
theorem serInt_head (n : Int) :
    ∃ c t, serInt n = c :: t ∧ (c = 45 ∨ isDigit c = true) := by
  unfold serInt
  by_cases hn : n < 0
  · exact ⟨45, natDigits n.natAbs, by rw [if_pos hn], Or.inl rfl⟩
  · rcases hd : natDigits n.natAbs with _ | ⟨d, t⟩
    · exact absurd hd (natDigits_ne_nil _)
    · exact ⟨d, t, by rw [if_neg hn],
        Or.inr (mem_natDigits_isDigit n.natAbs d (by rw [hd]; simp))⟩

/-- The head character of a printed value is not whitespace and not a
closing bracket. -/
theorem serJson_head (v : Json) :
    ∃ c t, serJson v = c :: t ∧ isJsonWS c = false ∧ c ≠ 93 := by
  cases v with
  | null => exact ⟨110, _, rfl, by decide, by decide⟩
  | bool b =>
    cases b with
    | true => exact ⟨116, _, rfl, by decide, by decide⟩
    | false => exact ⟨102, _, rfl, by decide, by decide⟩
  | num n =>
    cases n with
    | int m =>
      obtain ⟨c, t, hct, hc⟩ := serInt_head m
      refine ⟨c, t, by rw [show serJson (.num (.int m)) = serInt m from rfl, hct], ?_, ?_⟩
      · rcases hc with h | h
        · subst h; decide
        · simp [isDigit] at h; simp [isJsonWS]; omega
      · rcases hc with h | h
        · omega
        · simp [isDigit] at h; omega
    | float m e =>
      obtain ⟨c, t, hct, hc⟩ := serInt_head m
      refine ⟨c, t ++ 101 :: serInt e, ?_, ?_, ?_⟩
      · rw [show serJson (.num (.float m e)) = serInt m ++ 101 :: serInt e from rfl, hct]
        rfl
      · rcases hc with h | h
        · subst h; decide
        · simp [isDigit] at h; simp [isJsonWS]; omega
      · rcases hc with h | h
        · omega
        · simp [isDigit] at h; omega
    | nan => exact ⟨78, _, rfl, by decide, by decide⟩
    | inf => exact ⟨73, _, rfl, by decide, by decide⟩
    | ninf => exact ⟨45, _, rfl, by decide, by decide⟩
  | str s => exact ⟨34, _, rfl, by decide, by decide⟩
  | arr xs =>
    cases xs with
    | nil => exact ⟨91, _, rfl, by decide, by decide⟩
    | cons x xs2 => exact ⟨91, _, rfl, by decide, by decide⟩
  | obj ms =>
    cases ms with
    | nil => exact ⟨123, _, rfl, by decide, by decide⟩
    | cons k v ms2 => exact ⟨123, _, rfl, by decide, by decide⟩

/-- The continuation after a printed array element satisfies the number
boundary (a separator or the closing bracket comes next). -/
theorem numBoundary_serElems (xs : JsonElems) (rest : List Nat) :
    NumBoundary (serElems xs ++ 93 :: rest) := by
  cases xs with
  | nil => exact numBoundary_rbracket rest
  | cons x xs2 => exact numBoundary_comma _

/-- The continuation after a printed object value satisfies the number
boundary. -/
theorem numBoundary_serMembers (ms : JsonMembers) (rest : List Nat) :
    NumBoundary (serMembers ms ++ 125 :: rest) := by
  cases ms with
  | nil => exact numBoundary_rbrace rest
  | cons k v ms2 => exact numBoundary_comma _

theorem cons_take_ne {c d : Nat} (hne : c ≠ d) (t : List Nat) (k : Nat) (ds : List Nat) :
    ¬((c :: t).take (k + 1) = d :: ds) := by
  simp only [List.take_succ_cons, List.cons.injEq, not_and]
  intro h
  exact absurd h hne

/-- A number-looking head character sends the scanner to the number branch. -/
theorem parseValue_dispatch_number (f : Nat) {c : Nat} (t : List Nat)
    (hc : c = 45 ∨ isDigit c = true) :
    parseValue (f + 1) (c :: t) = parseNumber (c :: t) := by
  have hrange : c = 45 ∨ (48 ≤ c ∧ c ≤ 57) := by
    rcases hc with h | h
    · exact Or.inl h
    · simp [isDigit] at h; omega
  rw [parseValue,
    if_neg (by simp; omega),
    if_neg (by simp; omega),
    if_neg (by simp; omega),
    if_neg (cons_take_ne (by omega) t 3 [117, 108, 108]),
    if_neg (cons_take_ne (by omega) t 3 [114, 117, 101]),
    if_neg (cons_take_ne (by omega) t 4 [97, 108, 115, 101])]

/-- Away from the `NaN`/`Infinity`/`-Infinity` literals the number scanner is
`parseNumberCore`. -/
theorem parseNumber_eq_core {c : Nat} {t : List Nat}
    (h78 : c ≠ 78) (h73 : c ≠ 73)
    (hsnd : c = 45 → ∃ d t2, t = d :: t2 ∧ d ≠ 73) :
    parseNumber (c :: t) = parseNumberCore (c :: t) := by
  rw [parseNumber,
    if_neg (cons_take_ne h78 t 2 [97, 78]),
    if_neg (cons_take_ne h73 t 7 [110, 102, 105, 110, 105, 116, 121]),
    if_neg ?hninf]
  case hninf =>
    by_cases h45 : c = 45
    · subst h45
      obtain ⟨d, t2, rfl, hd⟩ := hsnd rfl
      exact fun h => hd (by simpa using congrArg (fun l => l.take 2) h)
    · exact cons_take_ne h45 t 8 [73, 110, 102, 105, 110, 105, 116, 121]

/-- The tail of a negatively printed integer starts with a digit. -/
theorem serInt_neg_head {m : Int} {t : List Nat} (h : serInt m = 45 :: t) :
    ∃ d t2, t = d :: t2 ∧ isDigit d = true := by
  unfold serInt at h
  by_cases hm : m < 0
  · rw [if_pos hm] at h
    have ht : t = natDigits m.natAbs := by
      have := congrArg List.tail h
      simpa using this.symm
    rcases hd : natDigits m.natAbs with _ | ⟨d, t2⟩
    · exact absurd hd (natDigits_ne_nil _)
    · exact ⟨d, t2, by rw [ht, hd],
        mem_natDigits_isDigit m.natAbs d (by rw [hd]; simp)⟩
  · rw [if_neg hm] at h
    have := mem_natDigits_isDigit m.natAbs 45 (by rw [h]; simp)
    exact absurd this (by decide)

theorem parseValue_str (f : Nat) (t : List Nat) :
    parseValue (f + 1) (34 :: t)
      = (parseStringBody (t.length + 1) t).map fun p => (Json.str p.1, p.2) := rfl

theorem parseValue_lbrace (f : Nat) (t : List Nat) :
    parseValue (f + 1) (123 :: t)
      = if (skipWS t).take 1 = [125] then some (.obj .nil, (skipWS t).drop 1)
        else parseMembersRest f (skipWS t) .nil := rfl

theorem parseValue_lbracket (f : Nat) (t : List Nat) :
    parseValue (f + 1) (91 :: t)
      = if (skipWS t).take 1 = [93] then some (.arr .nil, (skipWS t).drop 1)
        else (parseElemsRest f (skipWS t)).map fun p => (Json.arr p.1, p.2) := rfl

mutual
/-- The scanner reads back a printed well-formed value, leaving exactly the
continuation, provided the continuation cannot extend a number literal. -/
theorem parse_ser_val (v : Json) (wf : JsonWF v) (f : Nat) (rest : List Nat)
    (hf : jsonFuel v ≤ f) (hb : NumBoundary rest) :
    parseValue f (serJson v ++ rest) = some (v, rest) := by
  cases v with
  | null =>
    obtain ⟨f1, rfl⟩ : ∃ g, f = g + 1 := ⟨f - 1, by simp [jsonFuel] at hf; omega⟩
    simp [serJson, parseValue]
  | bool b =>
    obtain ⟨f1, rfl⟩ : ∃ g, f = g + 1 := ⟨f - 1, by simp [jsonFuel] at hf; omega⟩
    cases b <;> simp [serJson, parseValue]
  | num n =>
    obtain ⟨f1, rfl⟩ : ∃ g, f = g + 1 := ⟨f - 1, by simp [jsonFuel] at hf; omega⟩
    cases n with
    | int m =>
      obtain ⟨c, t, hct, hc⟩ := serInt_head m
      rw [show serJson (.num (.int m)) = serInt m from rfl, hct, List.cons_append,
        parseValue_dispatch_number f1 _ hc,
        parseNumber_eq_core ?h78 ?h73 ?hsnd, ← List.cons_append, ← hct,
        parseNumberCore_serInt m hb]
      case h78 =>
        rcases hc with h | h
        · omega
        · simp [isDigit] at h; omega
      case h73 =>
        rcases hc with h | h
        · omega
        · simp [isDigit] at h; omega
      case hsnd =>
        intro h45
        rw [h45] at hct
        obtain ⟨d, t2, ht, hd⟩ := serInt_neg_head hct
        refine ⟨d, t2 ++ rest, by rw [ht, List.cons_append], ?_⟩
        simp [isDigit] at hd
        omega
    | float m e =>
      obtain ⟨c, t, hct, hc⟩ := serInt_head m
      have hdec : serFloat m e ++ rest = c :: (t ++ (101 :: (serInt e ++ rest))) := by
        rw [serFloat, hct]
        simp
      rw [show serJson (.num (.float m e)) = serFloat m e from rfl, hdec,
        parseValue_dispatch_number f1 _ hc,
        parseNumber_eq_core ?h78f ?h73f ?hsndf, ← hdec,
        parseNumberCore_serFloat m e hb]
      case h78f =>
        rcases hc with h | h
        · omega
        · simp [isDigit] at h; omega
      case h73f =>
        rcases hc with h | h
        · omega
        · simp [isDigit] at h; omega
      case hsndf =>
        intro h45
        rw [h45] at hct
        obtain ⟨d, t2, ht, hd⟩ := serInt_neg_head hct
        refine ⟨d, t2 ++ (101 :: (serInt e ++ rest)), by rw [ht, List.cons_append], ?_⟩
        simp [isDigit] at hd
        omega
    | nan =>
      simp [serJson, serNum, parseValue, parseNumber]
    | inf =>
      simp [serJson, serNum, parseValue, parseNumber]
    | ninf =>
      simp [serJson, serNum, parseValue, parseNumber]
  | str s =>
    obtain ⟨f1, rfl⟩ : ∃ g, f = g + 1 := ⟨f - 1, by simp [jsonFuel] at hf; omega⟩
    have hshape : serJson (.str s) ++ rest = 34 :: (escapeString s ++ 34 :: rest) := by
      rw [show serJson (.str s) = 34 :: escapeString s ++ [34] from rfl]
      simp
    rw [hshape, parseValue_str,
      parseStringBody_escape s _ rest (by simp only [List.length_append, List.length_cons]; omega)]
    rfl
  | arr xs =>
    cases wf with
    | arr wfxs =>
      cases xs with
      | nil =>
        obtain ⟨f1, rfl⟩ : ∃ g, f = g + 1 := ⟨f - 1, by simp [jsonFuel] at hf; omega⟩
        rw [show serJson (.arr .nil) ++ rest = 91 :: (93 :: rest) from rfl,
          parseValue_lbracket, skipWS_cons_not_ws (by decide), if_pos (take_one_cons _ _)]
        rfl
      | cons x xs2 =>
        cases wfxs with
        | cons wfx wfxs2 =>
          obtain ⟨f1, rfl⟩ : ∃ g, f = g + 1 := ⟨f - 1, by simp [jsonFuel] at hf; omega⟩
          have hfx : elemsFuel (.cons x xs2) ≤ f1 := by simp [jsonFuel] at hf; omega
          obtain ⟨c2, t2, hct2, hws2, h93⟩ := serJson_head x
          have hshape : serJson (.arr (.cons x xs2)) ++ rest
              = 91 :: (serJson x ++ (serElems xs2 ++ 93 :: rest)) := by
            rw [show serJson (.arr (.cons x xs2))
              = 91 :: serJson x ++ serElems xs2 ++ [93] from rfl]
            simp
          rw [hshape, parseValue_lbracket]
          rw [show serJson x ++ (serElems xs2 ++ 93 :: rest)
              = c2 :: (t2 ++ (serElems xs2 ++ 93 :: rest)) from by rw [hct2]; rfl,
            skipWS_cons_not_ws hws2, if_neg (by simp [take_one_cons, h93])]
          rw [show c2 :: (t2 ++ (serElems xs2 ++ 93 :: rest))
              = serJson x ++ (serElems xs2 ++ 93 :: rest) from by rw [hct2]; rfl,
            parse_ser_elems x xs2 wfx wfxs2 f1 rest hfx]
          rfl
  | obj ms =>
    cases wf with
    | obj wfms =>
      cases ms with
      | nil =>
        obtain ⟨f1, rfl⟩ : ∃ g, f = g + 1 := ⟨f - 1, by simp [jsonFuel] at hf; omega⟩
        rw [show serJson (.obj .nil) ++ rest = 123 :: (125 :: rest) from rfl,
          parseValue_lbrace, skipWS_cons_not_ws (by decide), if_pos (take_one_cons _ _)]
        rfl
      | cons k v2 ms2 =>
        cases wfms with
        | cons wfv2 wfms2 hk =>
          obtain ⟨f1, rfl⟩ : ∃ g, f = g + 1 := ⟨f - 1, by simp [jsonFuel] at hf; omega⟩
          have hfm : membersFuel (.cons k v2 ms2) ≤ f1 := by simp [jsonFuel] at hf; omega
          have hshape : serJson (.obj (.cons k v2 ms2)) ++ rest
              = 123 :: (34 :: (escapeString k
                  ++ 34 :: 58 :: 32 :: (serJson v2 ++ (serMembers ms2 ++ 125 :: rest)))) := by
            rw [show serJson (.obj (.cons k v2 ms2))
              = 123 :: 34 :: escapeString k ++ [34, 58, 32]
                  ++ serJson v2 ++ serMembers ms2 ++ [125] from rfl]
            simp
          rw [hshape, parseValue_lbrace, skipWS_cons_not_ws (by decide),
            if_neg (by simp [take_one_cons]),
            parse_ser_members k v2 ms2 .nil wfv2 wfms2 hk (fun key _ => rfl) f1 rest hfm]
          rfl
  termination_by f

/-- The scanner reads back a printed nonempty element list up to the closing
bracket. -/
theorem parse_ser_elems (x : Json) (xs : JsonElems) (wfx : JsonWF x) (wfxs : ElemsWF xs)
    (f : Nat) (rest : List Nat) (hf : elemsFuel (.cons x xs) ≤ f) :
    parseElemsRest f (serJson x ++ (serElems xs ++ 93 :: rest)) = some (.cons x xs, rest) := by
  obtain ⟨f1, rfl⟩ : ∃ g, f = g + 1 := ⟨f - 1, by simp [elemsFuel] at hf; omega⟩
  have hfx : jsonFuel x ≤ f1 := by simp [elemsFuel] at hf; omega
  rw [parseElemsRest,
    parse_ser_val x wfx f1 _ hfx (numBoundary_serElems xs rest)]
  simp only [Option.some_bind]
  cases xs with
  | nil =>
    rw [show serElems JsonElems.nil ++ 93 :: rest = 93 :: rest from rfl,
      skipWS_cons_not_ws (by decide), if_neg (by simp [take_one_cons]), if_pos (take_one_cons _ _)]
    rfl
  | cons x2 xs2 =>
    cases wfxs with
    | cons wfx2 wfxs2 =>
      have hS : serElems (.cons x2 xs2) ++ 93 :: rest
          = 44 :: (32 :: (serJson x2 ++ (serElems xs2 ++ 93 :: rest))) := by
        rw [show serElems (.cons x2 xs2) = 44 :: 32 :: serJson x2 ++ serElems xs2 from rfl]
        simp
      rw [hS, skipWS_cons_not_ws (by decide), if_pos (take_one_cons _ _)]
      simp only [List.drop_succ_cons, List.drop_zero]
      rw [skipWS_cons_ws (by decide)]
      obtain ⟨c2, t2, hct2, hws2, _⟩ := serJson_head x2
      rw [show serJson x2 ++ (serElems xs2 ++ 93 :: rest)
          = c2 :: (t2 ++ (serElems xs2 ++ 93 :: rest)) from by rw [hct2]; rfl,
        skipWS_cons_not_ws hws2,
        show c2 :: (t2 ++ (serElems xs2 ++ 93 :: rest))
          = serJson x2 ++ (serElems xs2 ++ 93 :: rest) from by rw [hct2]; rfl,
        parse_ser_elems x2 xs2 wfx2 wfxs2 f1 rest
          (by simp only [elemsFuel] at hf ⊢; omega)]
      rfl
  termination_by f

/-- The scanner reads back a printed nonempty member list up to the closing
brace, merging into the accumulator exactly by list concatenation. -/
theorem parse_ser_members (k : PyStr) (v : Json) (ms : JsonMembers) (acc : JsonMembers)
    (wfv : JsonWF v) (wfms : MembersWF ms) (hk : ms.hasKey k = false)
    (hacc : ∀ key, (JsonMembers.cons k v ms).hasKey key = true → acc.hasKey key = false)
    (f : Nat) (rest : List Nat) (hf : membersFuel (.cons k v ms) ≤ f) :
    parseMembersRest f
        (34 :: (escapeString k ++ 34 :: 58 :: 32 :: (serJson v ++ (serMembers ms ++ 125 :: rest))))
        acc
      = some (.obj (acc.append (.cons k v ms)), rest) := by
  obtain ⟨f1, rfl⟩ : ∃ g, f = g + 1 := ⟨f - 1, by simp [membersFuel] at hf; omega⟩
  have hfv : jsonFuel v ≤ f1 := by simp [membersFuel] at hf; omega
  have hknotacc : acc.hasKey k = false := hacc k (by simp [JsonMembers.hasKey])
  rw [parseMembersRest, if_pos (take_one_cons _ _)]
  simp only [List.drop_succ_cons, List.drop_zero]
  rw [parseStringBody_escape k _ _ (by simp only [List.length_append, List.length_cons]; omega)]
  simp only [Option.some_bind]
  rw [skipWS_cons_not_ws (by decide), if_pos (take_one_cons _ _)]
  simp only [List.drop_succ_cons, List.drop_zero]
  rw [skipWS_cons_ws (by decide)]
  obtain ⟨cv, tv, hctv, hwsv, _⟩ := serJson_head v
  rw [show serJson v ++ (serMembers ms ++ 125 :: rest)
      = cv :: (tv ++ (serMembers ms ++ 125 :: rest)) from by rw [hctv]; rfl,
    skipWS_cons_not_ws hwsv,
    show cv :: (tv ++ (serMembers ms ++ 125 :: rest))
      = serJson v ++ (serMembers ms ++ 125 :: rest) from by rw [hctv]; rfl,
    parse_ser_val v wfv f1 _ hfv (numBoundary_serMembers ms rest)]
  simp only [Option.some_bind]
  cases ms with
  | nil =>
    rw [show serMembers JsonMembers.nil ++ 125 :: rest = 125 :: rest from rfl,
      skipWS_cons_not_ws (by decide), if_neg (by simp [take_one_cons]), if_pos (take_one_cons _ _)]
    simp only [List.drop_succ_cons, List.drop_zero]
    rw [JsonMembers.insert_of_not_hasKey hknotacc v]
  | cons k2 v2 ms2 =>
    cases wfms with
    | cons wfv2 wfms2 hk2 =>
      have hS : serMembers (.cons k2 v2 ms2) ++ 125 :: rest
          = 44 :: (32 :: (34 :: (escapeString k2
              ++ 34 :: 58 :: 32 :: (serJson v2 ++ (serMembers ms2 ++ 125 :: rest))))) := by
        rw [show serMembers (.cons k2 v2 ms2)
          = 44 :: 32 :: 34 :: escapeString k2 ++ [34, 58, 32]
              ++ serJson v2 ++ serMembers ms2 from rfl]
        simp
      rw [hS, skipWS_cons_not_ws (by decide), if_pos (take_one_cons _ _)]
      simp only [List.drop_succ_cons, List.drop_zero]
      rw [skipWS_cons_ws (by decide), skipWS_cons_not_ws (by decide)]
      have hkne : ¬(k = k2) ∧ ms2.hasKey k = false := by
        rw [JsonMembers.hasKey] at hk
        simp only [Bool.or_eq_false_iff] at hk
        exact ⟨fun he => by simp [he] at hk, hk.2⟩
      rw [parse_ser_members k2 v2 ms2 (acc.insert k v) wfv2 wfms2 hk2 ?hacc2 f1 rest
        (by simp only [membersFuel] at hf ⊢; omega)]
      rw [JsonMembers.insert_of_not_hasKey hknotacc v, JsonMembers.append_cons_assoc]
      case hacc2 =>
        intro key hkey
        rw [JsonMembers.insert_of_not_hasKey hknotacc v, JsonMembers.hasKey_append]
        have h1 : acc.hasKey key = false := by
          refine hacc key ?_
          rw [JsonMembers.hasKey]
          rw [JsonMembers.hasKey]
          rw [JsonMembers.hasKey] at hkey
          simp only [Bool.or_eq_true] at hkey ⊢
          rcases hkey with h | h
          · exact Or.inr (Or.inl h)
          · exact Or.inr (Or.inr h)
        have hne : ¬(k = key) := by
          intro he
          subst he
          rw [JsonMembers.hasKey] at hk hkey
          simp only [Bool.or_eq_false_iff] at hk
          simp only [Bool.or_eq_true] at hkey
          rcases hkey with h | h
          · rw [hk.1] at h
            exact Bool.noConfusion h
          · rw [hk.2] at h
            exact Bool.noConfusion h
        rw [h1, JsonMembers.hasKey, JsonMembers.hasKey]
        simp [hne]
  termination_by f
end

mutual
/-- The printed form is at least as long as the recursion budget needed. -/
theorem jsonFuel_le_len (v : Json) : jsonFuel v ≤ (serJson v).length := by
  match v with
  | .null => simp [jsonFuel, serJson]
  | .bool b => cases b <;> simp [jsonFuel, serJson]
  | .num n =>
    obtain ⟨c, t, hct, -, -⟩ := serJson_head (.num n)
    rw [show jsonFuel (.num n) = 1 from rfl, hct]
    simp
  | .str s =>
    rw [show jsonFuel (.str s) = 1 from rfl,
      show serJson (.str s) = 34 :: escapeString s ++ [34] from rfl]
    simp
  | .arr .nil => simp [jsonFuel, elemsFuel, serJson]
  | .arr (.cons x xs) =>
    have h1 := jsonFuel_le_len x
    have h2 := elemsFuel_le_len xs
    rw [show jsonFuel (.arr (.cons x xs)) = elemsFuel (.cons x xs) + 1 from rfl,
      show elemsFuel (JsonElems.cons x xs) = jsonFuel x + elemsFuel xs + 1 from rfl,
      show serJson (.arr (.cons x xs)) = 91 :: serJson x ++ serElems xs ++ [93] from rfl]
    simp only [List.length_cons, List.length_append, List.length_nil]
    omega
  | .obj .nil => simp [jsonFuel, membersFuel, serJson]
  | .obj (.cons k v2 ms) =>
    have h1 := jsonFuel_le_len v2
    have h2 := membersFuel_le_len ms
    rw [show jsonFuel (.obj (.cons k v2 ms)) = membersFuel (.cons k v2 ms) + 1 from rfl,
      show membersFuel (JsonMembers.cons k v2 ms) = jsonFuel v2 + membersFuel ms + 1 from rfl,
      show serJson (.obj (.cons k v2 ms))
        = 123 :: 34 :: escapeString k ++ [34, 58, 32]
            ++ serJson v2 ++ serMembers ms ++ [125] from rfl]
    simp only [List.length_cons, List.length_append, List.length_nil]
    omega

/-- Budget bound for printed array elements. -/
theorem elemsFuel_le_len (xs : JsonElems) : elemsFuel xs ≤ (serElems xs).length := by
  match xs with
  | .nil => simp [elemsFuel, serElems]
  | .cons x xs2 =>
    have h1 := jsonFuel_le_len x
    have h2 := elemsFuel_le_len xs2
    rw [show elemsFuel (JsonElems.cons x xs2) = jsonFuel x + elemsFuel xs2 + 1 from rfl,
      show serElems (JsonElems.cons x xs2) = 44 :: 32 :: serJson x ++ serElems xs2 from rfl]
    simp only [List.length_cons, List.length_append]
    omega

/-- Budget bound for printed object members. -/
theorem membersFuel_le_len (ms : JsonMembers) : membersFuel ms ≤ (serMembers ms).length := by
  match ms with
  | .nil => simp [membersFuel, serMembers]
  | .cons k v2 ms2 =>
    have h1 := jsonFuel_le_len v2
    have h2 := membersFuel_le_len ms2
    rw [show membersFuel (JsonMembers.cons k v2 ms2)
        = jsonFuel v2 + membersFuel ms2 + 1 from rfl,
      show serMembers (JsonMembers.cons k v2 ms2)
        = 44 :: 32 :: 34 :: escapeString k ++ [34, 58, 32]
            ++ serJson v2 ++ serMembers ms2 from rfl]
    simp only [List.length_cons, List.length_append, List.length_nil]
    omega
end

/-- Full round trip: `json.loads` reads back `json.dumps` of every
well-formed value. -/
theorem jsonParse_serJson (v : Json) (wf : JsonWF v) : jsonParse (serJson v) = some v := by
  obtain ⟨c, t, hct, hws, -⟩ := serJson_head v
  have hskip : skipWS (serJson v) = serJson v := by rw [hct]; exact skipWS_cons_not_ws hws t
  have hval := parse_ser_val v wf ((serJson v).length + 1) []
    (by have := jsonFuel_le_len v; omega) numBoundary_nil
  rw [List.append_nil] at hval
  unfold jsonParse
  rw [hskip, hval]
  rfl

/-! ### Everything the scanner produces is well-formed -/

theorem JsonMembers.hasKey_insert (ms : JsonMembers) (k : PyStr) (v : Json) (key : PyStr) :
    (ms.insert k v).hasKey key = (ms.hasKey key || k == key) := by
  match ms with
  | .nil => simp [JsonMembers.insert, JsonMembers.hasKey]
  | .cons k1 w tl =>
    by_cases hk1k : (k1 == k) = true
    · rw [JsonMembers.insert, if_pos hk1k]
      have he : k1 = k := by simpa using hk1k
      subst he
      rw [JsonMembers.hasKey, JsonMembers.hasKey]
      cases h1 : (k1 == key) <;> cases h2 : tl.hasKey key <;> simp
    · rw [JsonMembers.insert, if_neg hk1k]
      rw [JsonMembers.hasKey, JsonMembers.hasKey,
        JsonMembers.hasKey_insert tl k v key]
      cases h1 : (k1 == key) <;> cases h2 : tl.hasKey key <;> simp

theorem MembersWF_insert {ms : JsonMembers} (wf : MembersWF ms) {v : Json}
    (wfv : JsonWF v) (k : PyStr) : MembersWF (ms.insert k v) := by
  match ms, wf with
  | .nil, _ => exact MembersWF.cons wfv MembersWF.nil rfl
  | .cons k1 w tl, MembersWF.cons wfw wftl hk1 =>
    by_cases hk1k : (k1 == k) = true
    · rw [JsonMembers.insert, if_pos hk1k]
      exact MembersWF.cons wfv wftl hk1
    · rw [JsonMembers.insert, if_neg hk1k]
      refine MembersWF.cons wfw (MembersWF_insert wftl wfv k) ?_
      rw [JsonMembers.hasKey_insert, hk1]
      have hne : ¬(k1 = k) := by simpa using hk1k
      simp [show ¬(k = k1) from fun he => hne he.symm]

theorem parseIntTail_num {neg : Bool} {ival : Int} {s2 : List Nat} {v : Json}
    {r : List Nat} (h : parseIntTail neg ival s2 = some (v, r)) : ∃ n, v = .num n := by
  unfold parseIntTail at h
  repeat' split at h
  all_goals first
    | (simp only [Option.some.injEq, Prod.mk.injEq] at h
       exact ⟨_, h.1.symm⟩)
    | exact absurd h (by simp)

theorem parseNumber_num {s : List Nat} {v : Json} {r : List Nat}
    (h : parseNumber s = some (v, r)) : ∃ n, v = .num n := by
  unfold parseNumber parseNumberCore at h
  repeat' split at h
  all_goals first
    | (simp only [Option.some.injEq, Prod.mk.injEq] at h
       exact ⟨_, h.1.symm⟩)
    | exact parseIntTail_num h
    | exact absurd h (by simp)

mutual
/-- Scanner values are well-formed. -/
theorem parseValue_wf (f : Nat) (s : List Nat) (v : Json) (r : List Nat)
    (h : parseValue f s = some (v, r)) : JsonWF v := by
  obtain ⟨f1, rfl⟩ : ∃ g, f = g + 1 := by
    rcases Nat.eq_zero_or_pos f with h0 | h0
    · subst h0; rw [parseValue] at h; exact absurd h (by simp)
    · exact ⟨f - 1, by omega⟩
  cases s with
  | nil => rw [parseValue] at h; exact absurd h (by simp)
  | cons c t =>
    rw [parseValue] at h
    split at h
    · -- string
      cases hsb : parseStringBody (t.length + 1) t with
      | none => rw [hsb] at h; exact absurd h (by simp)
      | some p =>
        rw [hsb] at h
        simp only [Option.map_some', Option.some.injEq, Prod.mk.injEq] at h
        obtain ⟨h1, -⟩ := h
        exact h1 ▸ JsonWF.str p.1
    · split at h
      · split at h
        · -- empty object
          simp only [Option.some.injEq, Prod.mk.injEq] at h
          obtain ⟨h1, -⟩ := h
          exact h1 ▸ JsonWF.obj MembersWF.nil
        · obtain ⟨ms, rfl, wfm⟩ := parseMembersRest_wf f1 _ _ _ _ MembersWF.nil h
          exact JsonWF.obj wfm
      · split at h
        · split at h
          · -- empty array
            simp only [Option.some.injEq, Prod.mk.injEq] at h
            obtain ⟨h1, -⟩ := h
            exact h1 ▸ JsonWF.arr ElemsWF.nil
          · cases hpe : parseElemsRest f1 (skipWS t) with
            | none => rw [hpe] at h; exact absurd h (by simp)
            | some p =>
              rw [hpe] at h
              simp only [Option.map_some', Option.some.injEq, Prod.mk.injEq] at h
              obtain ⟨h1, -⟩ := h
              exact h1 ▸ JsonWF.arr (parseElemsRest_wf f1 _ p.1 p.2 (by rw [hpe]))
        · split at h
          · -- null literal
            simp only [Option.some.injEq, Prod.mk.injEq] at h
            obtain ⟨h1, -⟩ := h
            exact h1 ▸ JsonWF.null
          · split at h
            · simp only [Option.some.injEq, Prod.mk.injEq] at h
              obtain ⟨h1, -⟩ := h
              exact h1 ▸ JsonWF.bool true
            · split at h
              · simp only [Option.some.injEq, Prod.mk.injEq] at h
                obtain ⟨h1, -⟩ := h
                exact h1 ▸ JsonWF.bool false
              · obtain ⟨n, rfl⟩ := parseNumber_num h
                exact JsonWF.num n
  termination_by f

/-- Scanner element lists are well-formed. -/
theorem parseElemsRest_wf (f : Nat) (s : List Nat) (vs : JsonElems) (r : List Nat)
    (h : parseElemsRest f s = some (vs, r)) : ElemsWF vs := by
  obtain ⟨f1, rfl⟩ : ∃ g, f = g + 1 := by
    rcases Nat.eq_zero_or_pos f with h0 | h0
    · subst h0; rw [parseElemsRest] at h; exact absurd h (by simp)
    · exact ⟨f - 1, by omega⟩
  rw [parseElemsRest] at h
  cases hv : parseValue f1 s with
  | none => rw [hv] at h; exact absurd h (by simp)
  | some p =>
    rw [hv] at h
    simp only [Option.some_bind] at h
    split at h
    · cases hq : parseElemsRest f1 (skipWS ((skipWS p.2).drop 1)) with
      | none => rw [hq] at h; exact absurd h (by simp)
      | some q =>
        rw [hq] at h
        simp only [Option.some_bind, Option.some.injEq, Prod.mk.injEq] at h
        obtain ⟨h1, -⟩ := h
        exact h1 ▸ ElemsWF.cons (parseValue_wf f1 s p.1 p.2 (by rw [hv]))
          (parseElemsRest_wf f1 _ q.1 q.2 (by rw [hq]))
    · split at h
      · simp only [Option.some.injEq, Prod.mk.injEq] at h
        obtain ⟨h1, -⟩ := h
        exact h1 ▸ ElemsWF.cons (parseValue_wf f1 s p.1 p.2 (by rw [hv])) ElemsWF.nil
      · exact absurd h (by simp)
  termination_by f

/-- Scanner member lists are well-formed (keys pairwise distinct), given a
well-formed accumulator. -/
theorem parseMembersRest_wf (f : Nat) (s : List Nat) (acc : JsonMembers) (v : Json)
    (r : List Nat) (hacc : MembersWF acc) (h : parseMembersRest f s acc = some (v, r)) :
    ∃ ms, v = Json.obj ms ∧ MembersWF ms := by
  obtain ⟨f1, rfl⟩ : ∃ g, f = g + 1 := by
    rcases Nat.eq_zero_or_pos f with h0 | h0
    · subst h0; rw [parseMembersRest] at h; exact absurd h (by simp)
    · exact ⟨f - 1, by omega⟩
  rw [parseMembersRest] at h
  split at h
  · cases hk : parseStringBody ((s.drop 1).length + 1) (s.drop 1) with
    | none => rw [hk] at h; exact absurd h (by simp)
    | some kp =>
      rw [hk] at h
      simp only [Option.some_bind] at h
      split at h
      · cases hv : parseValue f1 (skipWS ((skipWS kp.2).drop 1)) with
        | none => rw [hv] at h; exact absurd h (by simp)
        | some vp =>
          rw [hv] at h
          simp only [Option.some_bind] at h
          split at h
          · exact parseMembersRest_wf f1 _ _ _ _
              (MembersWF_insert hacc (parseValue_wf f1 _ vp.1 vp.2 (by rw [hv])) kp.1) h
          · split at h
            · simp only [Option.some.injEq, Prod.mk.injEq] at h
              obtain ⟨h1, -⟩ := h
              exact ⟨acc.insert kp.1 vp.1, h1.symm,
                MembersWF_insert hacc (parseValue_wf f1 _ vp.1 vp.2 (by rw [hv])) kp.1⟩
            · exact absurd h (by simp)
      · exact absurd h (by simp)
  · exact absurd h (by simp)
  termination_by f
end

theorem jsonParse_wf {s : PyStr} {v : Json} (h : jsonParse s = some v) : JsonWF v := by
  unfold jsonParse at h
  cases hp : parseValue (s.length + 1) (skipWS s) with
  | none => rw [hp] at h; exact absurd h (by simp)
  | some p =>
    rw [hp] at h
    change (if skipWS p.2 = [] then some p.1 else none) = some v at h
    split at h
    · exact (Option.some.inj h) ▸ parseValue_wf _ _ p.1 p.2 (by rw [hp])
    · exact absurd h (by simp)

theorem pyJsonLoads_wf {raw : List Nat} {v : Json} (h : pyJsonLoads raw = some v) :
    JsonWF v := by
  unfold pyJsonLoads at h
  cases hu : utf8Decode raw with
  | none => rw [hu] at h; exact absurd h (by simp)
  | some s =>
    rw [hu] at h
    simp only [Option.some_bind] at h
    exact jsonParse_wf h


/-! ## Claims -/

/-- Claim C1: for every HTTP request delivered to the handler, whatever the
body content and whatever the decode outcome, the handler returns status 200
with the JSON body consisting of "received" mapped to true and "status"
mapped to "ok"; no error status is ever returned for malformed payloads. -/
theorem receive_webhook_fixed_response (req : Request) :
    (receive_webhook req).2.status = 200 ∧
    (receive_webhook req).2.content =
      Json.obj (.cons (pystr "received") (.bool true)
        (.cons (pystr "status") (.str (pystr "ok")) .nil)) :=
  ⟨rfl, rfl⟩

/-- Claim C2: for every request body that is valid JSON, the decode ladder
selects tag "json" with the parsed value (the later fallback stages are not
taken), and the decoded value is structurally equal to the input after a
parse/serialize round-trip: serializing the decoded value with the encoder
and parsing the result again recovers the very same value. -/
theorem decodeBody_json_roundtrip (raw : List Nat) (v : Json)
    (h : pyJsonLoads raw = some v) :
    decodeBody raw = DecodedBody.json v ∧ (decodeBody raw).tag = pystr "json" ∧
      jsonParse (serJson v) = some v := by
  refine ⟨?_, ?_, jsonParse_serJson v (pyJsonLoads_wf h)⟩
  · unfold decodeBody; rw [h]
  · unfold decodeBody; rw [h]; rfl

/-- Witness for C2 at the body consisting of the UTF-8 bytes of a small JSON
object with one key: the ladder tags it "json" and the round-trip through
the encoder returns the same parsed value. -/
theorem decodeBody_json_roundtrip_witness :
    pyJsonLoads [123, 34, 105, 100, 34, 58, 32, 52, 50, 125] =
      some (Json.obj (.cons [105, 100] (.num (.int 42)) .nil)) ∧
    decodeBody [123, 34, 105, 100, 34, 58, 32, 52, 50, 125] =
      DecodedBody.json (Json.obj (.cons [105, 100] (.num (.int 42)) .nil)) ∧
    jsonParse (serJson (Json.obj (.cons [105, 100] (.num (.int 42)) .nil))) =
      some (Json.obj (.cons [105, 100] (.num (.int 42)) .nil)) := by
  refine ⟨rfl, ?_, ?_⟩
  · exact (decodeBody_json_roundtrip [123, 34, 105, 100, 34, 58, 32, 52, 50, 125]
      (Json.obj (.cons [105, 100] (.num (.int 42)) .nil)) rfl).1
  · exact (decodeBody_json_roundtrip [123, 34, 105, 100, 34, 58, 32, 52, 50, 125]
      (Json.obj (.cons [105, 100] (.num (.int 42)) .nil)) rfl).2.2

/-- Claim C5: every request handled to completion emits exactly one log
record, the decode ladder selects exactly one of the three tags, and the log
record's `body_type` field equals the selected tag. -/
theorem receive_webhook_single_log_tag (req : Request) :
    (receive_webhook req).1.length = 1 ∧
    (∀ r ∈ (receive_webhook req).1, r.body_type = (decodeBody req.rawBody).tag) ∧
    ((∃ v, decodeBody req.rawBody = .json v) ∨
     (∃ s, decodeBody req.rawBody = .text s) ∨
     (∃ b, decodeBody req.rawBody = .bytes b)) := by
  refine ⟨rfl, ?_, ?_⟩
  · intro r hr
    simp only [receive_webhook, List.mem_singleton] at hr
    subst hr
    rfl
  · cases h : decodeBody req.rawBody with
    | json v => exact Or.inl ⟨v, rfl⟩
    | text s => exact Or.inr (Or.inl ⟨s, rfl⟩)
    | bytes b => exact Or.inr (Or.inr ⟨b, rfl⟩)

/-- Claim C6: the single log record carries exactly the structured fields
source (fixed "bettervoice"), client_ip (the peer host or an absent marker),
headers (the request header mapping), body_type (the decode tag) and body
(the serialized body string), at informational severity. -/
theorem receive_webhook_log_record_shape (req : Request) :
    (receive_webhook req).1 =
      [{ level := .info
         message := pystr "Received webhook event"
         source := pystr "bettervoice"
         client_ip := match req.client with
           | some c => some c.host
           | none => none
         headers := req.headers
         body_type := (decodeBody req.rawBody).tag
         body := serialize_body (decodeBody req.rawBody) }] := rfl

/-- Claim C7: when the connection has no resolvable peer address, the
handler proceeds with an absent client_ip in the log record and still
returns the fixed 200 response; the missing address never fails the
request. -/
theorem receive_webhook_absent_client (req : Request) (h : req.client = none) :
    (receive_webhook req).1.map LogRecord.client_ip = [none] ∧
    (receive_webhook req).2.status = 200 := by
  constructor
  · simp only [receive_webhook, List.map_cons, List.map_nil, h]
  · rfl

/-- Witness for C7 at a concrete request with no peer address. -/
theorem receive_webhook_absent_client_witness :
    (receive_webhook ⟨none, [], []⟩).1.map LogRecord.client_ip = [none] ∧
    (receive_webhook ⟨none, [], []⟩).2.status = 200 :=
  receive_webhook_absent_client ⟨none, [], []⟩ rfl

/-- Claim C8: serialization for logging always produces a string and never
raises: the JSON rendering with the stringify-any-leaf default is attempted
first, and on its failure the best-effort `str(body)` rendering is used;
both branches are total functions in the embedding. -/
theorem serialize_body_cases (b : DecodedBody) :
    (∃ s, json_dumps_default b = some s ∧ serialize_body b = s) ∨
    (json_dumps_default b = none ∧ serialize_body b = pyStrOf b) := by
  cases hb : json_dumps_default b with
  | some s => exact Or.inl ⟨s, rfl, by simp [serialize_body, hb]⟩
  | none => exact Or.inr ⟨rfl, by simp [serialize_body, hb]⟩

/-- Claim C9 (implicit): on every value the decode ladder can produce, the
primary JSON serialization with the stringify-leaf default already
succeeds, so the secondary `str(body)` branch is unreachable. -/
theorem json_dumps_default_succeeds_on_ladder (raw : List Nat) :
    ∃ s, json_dumps_default (decodeBody raw) = some s ∧
      serialize_body (decodeBody raw) = s := by
  cases h : decodeBody raw with
  | json v => exact ⟨_, rfl, rfl⟩
  | text s => exact ⟨_, rfl, rfl⟩
  | bytes b => exact ⟨_, rfl, rfl⟩

/-- Claim C10 (implicit): the decode outcome is a function of the raw body
bytes alone — two requests with identical body bytes get the identical tag
and decoded value (hence identical logged `body_type` and serialized body),
regardless of differing headers or client address. -/
theorem decode_independent_of_headers_client (req1 req2 : Request)
    (h : req1.rawBody = req2.rawBody) :
    decodeBody req1.rawBody = decodeBody req2.rawBody ∧
    (receive_webhook req1).1.map LogRecord.body_type =
      (receive_webhook req2).1.map LogRecord.body_type ∧
    (receive_webhook req1).1.map LogRecord.body =
      (receive_webhook req2).1.map LogRecord.body := by
  refine ⟨by rw [h], ?_, ?_⟩ <;>
    simp only [receive_webhook, List.map_cons, List.map_nil, h]

/-- Witness for C10: the same valid-JSON body with and without a
Content-Type header (and with and without a client address) decodes
identically, and is tagged "json" even without the header. -/
theorem decode_independent_of_headers_client_witness :
    (decodeBody [91, 49, 93] = decodeBody [91, 49, 93] ∧
      (receive_webhook ⟨some ⟨pystr "1.2.3.4", 80⟩,
          [(pystr "content-type", pystr "application/json")], [91, 49, 93]⟩).1.map
          LogRecord.body_type =
        (receive_webhook ⟨none, [], [91, 49, 93]⟩).1.map LogRecord.body_type ∧
      (receive_webhook ⟨some ⟨pystr "1.2.3.4", 80⟩,
          [(pystr "content-type", pystr "application/json")], [91, 49, 93]⟩).1.map
          LogRecord.body =
        (receive_webhook ⟨none, [], [91, 49, 93]⟩).1.map LogRecord.body) ∧
    (decodeBody [91, 49, 93]).tag = pystr "json" :=
  ⟨decode_independent_of_headers_client
      ⟨some ⟨pystr "1.2.3.4", 80⟩,
        [(pystr "content-type", pystr "application/json")], [91, 49, 93]⟩
      ⟨none, [], [91, 49, 93]⟩ rfl,
    rfl⟩

end BVWebhook
